import Mathlib

/-!
Verification development for the SEO_Optimizer crawl-and-analyze pipeline.

The definitions below are a shallow embedding of the TypeScript source:
  * `src/lib/seo/utils/url-utils.ts`            (`normalizeUrl`)
  * `src/lib/seo/analyzers/focused/links-analyzer.ts`
  * `src/lib/seo/orchestrator/seo-analysis-orchestrator.ts`
  * `src/pages/api/analyze-unified.ts`          (the POST crawl entrypoint)
  * robots/sitemap utilities (`analyzeSitemap`, `fetchSitemapContent`)

JavaScript numbers are modelled as rationals (`ℚ`), with `Option ℚ` for
values that may be `NaN`/`±Infinity`/non-numbers.  Network fetches, gzip
decompression, text decoding and the regex-based low-value/ISO-8601
classifiers are modelled as explicit function parameters, so every theorem
quantifies over the behaviour of those collaborators.
-/

namespace SEO

set_option maxRecDepth 20000

/-! ## Basic string machinery (JavaScript string operations on `List Char`) -/

/-- Prefix test on character lists (structurally recursive on the needle,
so it reduces even when the haystack's tail is abstract). -/
def isPre : List Char → List Char → Bool
  | [], _ => true
  | _ :: _, [] => false
  | a :: as, b :: bs => a == b && isPre as bs

/-- `hay.includes(needle)` on character lists. -/
def containsSub (needle : List Char) : List Char → Bool
  | [] => needle.isEmpty
  | c :: t => isPre needle (c :: t) || containsSub needle t

/-- `s.includes(sub)` for strings. -/
def strContains (s sub : String) : Bool := containsSub sub.data s.data

/-- `s.startsWith(p)` for strings (JavaScript `String.prototype.startsWith`). -/
def jsStartsWith (s p : String) : Bool := isPre p.data s.data

/-- `s.endsWith(p)` for strings (JavaScript `String.prototype.endsWith`). -/
def jsEndsWith (s p : String) : Bool := isPre p.data.reverse s.data.reverse

/-- JavaScript whitespace for `trim` (the characters that occur in practice). -/
def isJsSpace (c : Char) : Bool := c = ' ' || c = '\t' || c = '\n' || c = '\r'

/-- `s.trim()`. -/
def jsTrim (s : String) : String :=
  ⟨(s.data.dropWhile isJsSpace).reverse.dropWhile isJsSpace |>.reverse⟩

/-- `s.split('\n')` on character lists. -/
def splitOnNl : List Char → List (List Char)
  | [] => [[]]
  | c :: t =>
    if c = '\n' then [] :: splitOnNl t
    else match splitOnNl t with
      | [] => [[c]]
      | h :: r => (c :: h) :: r

/-- Lower-case a character list (ASCII, as the URL parser does for scheme/host). -/
def lowerChars (l : List Char) : List Char := l.map Char.toLower

/-- All-digit test for a port string. -/
def allDigits (l : List Char) : Bool := l.all Char.isDigit

/-- Numeric value of a digit string. -/
def digitsToNat (l : List Char) : Nat :=
  l.foldl (fun acc c => acc * 10 + (c.toNat - '0'.toNat)) 0

/-- The digit character for `d < 10`. -/
def digitChar (d : Nat) : Char := Char.ofNat ('0'.toNat + d)

/-- Decimal rendering of a natural number, structurally recursive on a fuel
that always suffices (`n + 1` bounds the digit count). -/
def natDigitsAux : Nat → Nat → List Char
  | 0, _ => []
  | fuel + 1, n =>
    if n < 10 then [digitChar n]
    else natDigitsAux fuel (n / 10) ++ [digitChar (n % 10)]

/-- Decimal rendering of a natural number (used to serialise ports). -/
def natDigits (n : Nat) : List Char := natDigitsAux (n + 1) n

/-! ## URL model

A model of the WHATWG URL parser restricted to what the code relies on for
`http:`/`https:` URLs: scheme and host are lower-cased, the scheme's default
port is elided, an absent path serialises as `/`.  Percent-encoding,
dot-segment removal, IPv6 hosts and the bare-`?` serialisation quirk are not
modelled; no theorem below exercises them. -/

structure UrlObj where
  scheme : List Char
  host : List Char
  port : Option Nat
  path : List Char
  search : List Char
  frag : List Char
  deriving DecidableEq, Repr

/-- Default port of a scheme (`http` → 80, `https` → 443). -/
def defaultPort (scheme : List Char) : Nat :=
  if scheme = "http".data then 80 else 443

/-- Render a port as `:n`. -/
def portChars : Option Nat → List Char
  | none => []
  | some n => ':' :: natDigits n

/-- `url.href` / `url.toString()`. -/
def urlHref (u : UrlObj) : List Char :=
  u.scheme ++ "://".data ++ u.host ++ portChars u.port ++ u.path ++ u.search ++ u.frag

/-- `url.host` (hostname plus non-default port). -/
def urlHostPort (u : UrlObj) : List Char := u.host ++ portChars u.port

/-- Parse the authority part `host[:port]` of an absolute URL. -/
def parseAuthority (scheme : List Char) (auth : List Char) : Option (List Char × Option Nat) :=
  let hostRaw := auth.takeWhile (fun c => c ≠ ':')
  let rest := auth.dropWhile (fun c => c ≠ ':')
  if hostRaw.isEmpty then none
  else
    match rest with
    | [] => some (lowerChars hostRaw, none)
    | _ :: portRaw =>
      if portRaw.isEmpty then some (lowerChars hostRaw, none)
      else if allDigits portRaw then
        let n := digitsToNat portRaw
        if n > 65535 then none
        else if n = defaultPort scheme then some (lowerChars hostRaw, none)
        else some (lowerChars hostRaw, some n)
      else none

/-- Parse an absolute `http:`/`https:` URL (`new URL(s)`; `none` models a throw). -/
def parseUrl (s : List Char) : Option UrlObj :=
  let schemeRaw := s.takeWhile (fun c => c ≠ ':')
  let rest := s.dropWhile (fun c => c ≠ ':')
  let scheme := lowerChars schemeRaw
  if scheme ≠ "http".data ∧ scheme ≠ "https".data then none
  else
    match rest with
    | ':' :: '/' :: '/' :: afterSlashes =>
      let auth := afterSlashes.takeWhile (fun c => c ≠ '/' ∧ c ≠ '?' ∧ c ≠ '#')
      let tail := afterSlashes.dropWhile (fun c => c ≠ '/' ∧ c ≠ '?' ∧ c ≠ '#')
      match parseAuthority scheme auth with
      | none => none
      | some (host, port) =>
        let path := tail.takeWhile (fun c => c ≠ '?' ∧ c ≠ '#')
        let tail2 := tail.dropWhile (fun c => c ≠ '?' ∧ c ≠ '#')
        let search := tail2.takeWhile (fun c => c ≠ '#')
        let frag := tail2.dropWhile (fun c => c ≠ '#')
        some { scheme := scheme
               host := host
               port := port
               path := if path.isEmpty then ['/'] else path
               search := if search = ['?'] then [] else search
               frag := frag }
    | _ => none

/-- Parse a string as absolute URL (string boundary). -/
def parseUrlS (s : String) : Option UrlObj := parseUrl s.data

/-- Directory of a path: everything up to and including the last `/`. -/
def dirOf (path : List Char) : List Char :=
  ((path.reverse.dropWhile (fun c => c ≠ '/'))).reverse

/-- Split `path?search#frag` text into the three components of a `UrlObj`
carrying over `base`'s scheme/host/port. -/
def withPathOf (base : UrlObj) (t : List Char) : UrlObj :=
  let path := t.takeWhile (fun c => c ≠ '?' ∧ c ≠ '#')
  let tail2 := t.dropWhile (fun c => c ≠ '?' ∧ c ≠ '#')
  let search := tail2.takeWhile (fun c => c ≠ '#')
  let frag := tail2.dropWhile (fun c => c ≠ '#')
  { scheme := base.scheme
    host := base.host
    port := base.port
    path := if path.isEmpty then ['/'] else path
    search := if search = ['?'] then [] else search
    frag := frag }

/-- A scheme character after the first: ASCII alphanumeric, `+`, `-`, `.`. -/
def schemeChar (c : Char) : Bool :=
  c.isAlpha || c.isDigit || c == '+' || c == '-' || c == '.'

/-- Does the reference start with a scheme `[a-zA-Z][a-zA-Z0-9+.-]*:`? -/
def hasScheme (href : List Char) : Bool :=
  match href with
  | [] => false
  | c :: _ =>
    c.isAlpha && (href.takeWhile (fun x => x ≠ ':')).all schemeChar
      && !((href.dropWhile (fun x => x ≠ ':')).isEmpty)

/-- The WHATWG special schemes whose slash fix-up is modelled (`file` is
left out: its empty-host fix-up is not modelled and no theorem exercises a
`file:` reference). -/
def isSpecialScheme (s : List Char) : Bool :=
  s == "http".data || s == "https".data || s == "ws".data
    || s == "wss".data || s == "ftp".data

/-- WHATWG default ports of the special schemes. -/
def specialDefaultPort (scheme : List Char) : Option Nat :=
  if scheme = "http".data ∨ scheme = "ws".data then some 80
  else if scheme = "https".data ∨ scheme = "wss".data then some 443
  else if scheme = "ftp".data then some 21
  else none

/-- Parse the authority `host[:port]` for an arbitrary scheme, eliding the
scheme's WHATWG default port (non-special schemes have none). -/
def parseAuthorityGen (scheme : List Char) (auth : List Char) :
    Option (List Char × Option Nat) :=
  let hostRaw := auth.takeWhile (fun c => c ≠ ':')
  let rest := auth.dropWhile (fun c => c ≠ ':')
  if hostRaw.isEmpty then none
  else
    match rest with
    | [] => some (lowerChars hostRaw, none)
    | _ :: portRaw =>
      if portRaw.isEmpty then some (lowerChars hostRaw, none)
      else if allDigits portRaw then
        let n := digitsToNat portRaw
        if n > 65535 then none
        else if specialDefaultPort scheme = some n then some (lowerChars hostRaw, none)
        else some (lowerChars hostRaw, some n)
      else none

/-- Parse `host[:port]/path?query#frag` (what follows `scheme://`) for an
arbitrary scheme. -/
def parseAuthorityUrl (scheme : List Char) (afterSlashes : List Char) : Option UrlObj :=
  let auth := afterSlashes.takeWhile (fun c => c ≠ '/' ∧ c ≠ '?' ∧ c ≠ '#')
  let tail := afterSlashes.dropWhile (fun c => c ≠ '/' ∧ c ≠ '?' ∧ c ≠ '#')
  match parseAuthorityGen scheme auth with
  | none => none
  | some (host, port) =>
    let path := tail.takeWhile (fun c => c ≠ '?' ∧ c ≠ '#')
    let tail2 := tail.dropWhile (fun c => c ≠ '?' ∧ c ≠ '#')
    let search := tail2.takeWhile (fun c => c ≠ '#')
    let frag := tail2.dropWhile (fun c => c ≠ '#')
    some { scheme := scheme
           host := host
           port := port
           path := if path.isEmpty then ['/'] else path
           search := if search = ['?'] then [] else search
           frag := frag }

/-- A non-special scheme's opaque-path reference `scheme:path?query#frag`
(no authority; the host is empty). -/
def opaqueRef (scheme rest : List Char) : UrlObj :=
  let path := rest.takeWhile (fun c => c ≠ '?' ∧ c ≠ '#')
  let tail2 := rest.dropWhile (fun c => c ≠ '?' ∧ c ≠ '#')
  let search := tail2.takeWhile (fun c => c ≠ '#')
  let frag := tail2.dropWhile (fun c => c ≠ '#')
  { scheme := scheme
    host := []
    port := none
    path := path
    search := if search = ['?'] then [] else search
    frag := frag }

/-- `url.href` of a resolved reference: an opaque-path URL (empty host and
no leading `/` on the path) serialises without `//`; any other resolved
reference serialises as `urlHref`. -/
def refHref (u : UrlObj) : List Char :=
  if u.host.isEmpty && !(isPre "/".data u.path) then
    u.scheme ++ [':'] ++ u.path ++ u.search ++ u.frag
  else urlHref u

/-- `new URL(href, base)`: relative-reference resolution (`none` models a
throw; `base` is the page's parsed `http(s)` URL).  Modelled: absolute
`http(s)` references; references carrying their own scheme — for a scheme
equal to the base's the reference is relative, for the other special
schemes (`ftp`, `ws`, `wss`, case-shifted `http(s)`) WHATWG's slash fix-up
parses an authority, and a non-special scheme yields an authority after
`//` or else an opaque path; protocol-relative `//…`; path-absolute `/…`;
and plain relative paths.  Not modelled (no theorem exercises them):
dot-segment normalisation, percent-encoding, `file:` empty-host fix-up,
empty authorities of non-special schemes, and the empty same-scheme
reference `https:`. -/
def resolveAgainst (base : UrlObj) (href : List Char) : Option UrlObj :=
  match parseUrl href with
  | some u => some u
  | none =>
    if hasScheme href then
      let scheme := lowerChars (href.takeWhile (fun c => c ≠ ':'))
      let rest := (href.dropWhile (fun c => c ≠ ':')).drop 1
      if scheme = base.scheme then
        if isPre "//".data rest then none
        else if isPre "/".data rest then some (withPathOf base rest)
        else some (withPathOf base (dirOf base.path ++ rest))
      else if isSpecialScheme scheme then
        parseAuthorityUrl scheme (rest.dropWhile (fun c => c = '/'))
      else if isPre "//".data rest then
        parseAuthorityUrl scheme (rest.drop 2)
      else
        some (opaqueRef scheme rest)
    else if isPre "//".data href then
      parseUrl (base.scheme ++ [':'] ++ href)
    else if isPre "/".data href then
      some (withPathOf base href)
    else
      some (withPathOf base (dirOf base.path ++ href))

/-! ## `normalizeUrl` (src/lib/seo/utils/url-utils.ts)

```ts
url = url.trim();
url = url.replace(/^(www\.|https?:\/\/)/, '');
if (!url.startsWith('http://') && !url.startsWith('https://')) url = 'https://' + url;
const urlObj = new URL(url);
if (!urlObj.hostname || urlObj.hostname.length < 3) throw ...;
if (!urlObj.hostname.includes('.')) throw ...;
return urlObj.href;
```
`none` models the function throwing. -/

/-- One application of the regex `^(www\.|https?:\/\/)` → `''`. -/
def stripUrlLeader (l : List Char) : List Char :=
  if isPre "www.".data l then l.drop 4
  else if isPre "https://".data l then l.drop 8
  else if isPre "http://".data l then l.drop 7
  else l

def normalizeUrl (s : String) : Option String :=
  let t0 := (jsTrim s).data
  let t1 := stripUrlLeader t0
  let t2 :=
    if isPre "http://".data t1 ∨ isPre "https://".data t1 then t1
    else "https://".data ++ t1
  match parseUrl t2 with
  | none => none
  | some u =>
    if u.host.length < 3 then none
    else if ¬ containsSub ".".data u.host then none
    else some ⟨urlHref u⟩

/-! ## Links analyzer (src/lib/seo/analyzers/focused/links-analyzer.ts) -/

/-- `pathname.replace(/\/$/, '') || '/'`: drop one trailing slash, with `/`
as fallback for the empty result. -/
def dropOneTrailingSlash (path : List Char) : List Char :=
  let stripped := if path ≠ [] ∧ path.getLast? = some '/' then path.dropLast else path
  if stripped.isEmpty then ['/'] else stripped

/-- The deduplication key built in `LinksAnalyzer.analyze`:
`protocol + '//' + host + pathWithoutTrailingSlash + search + hash`
of the (already normalized) URL. -/
def dedupKeyOf (u : UrlObj) : List Char :=
  u.scheme ++ [':'] ++ "//".data ++ urlHostPort u ++ dropOneTrailingSlash u.path
    ++ u.search ++ u.frag

/-- The full normalized key used for link deduplication: `normalizeUrl`
followed by the trailing-slash-insensitive key (`none` models a throw). -/
def linkDedupKey (s : String) : Option (List Char) :=
  match normalizeUrl s with
  | none => none
  | some n =>
    match parseUrl n.data with
    | none => none
    | some u => some (dedupKeyOf u)

/-- Outcome of the per-href classification inside `LinksAnalyzer.analyze`
(main-page branch). -/
inductive LinkAction where
  | ignored
  | internalAdd (u : String)
  | externalCount
  | skipped
  deriving DecidableEq, Repr

/-- The per-href classification of the main-page branch:

```ts
const href = (...).trim();
if (!href || href.startsWith('#') || href.startsWith('javascript:') ||
    href.startsWith('mailto:') || href.startsWith('tel:')) return;
if (href.startsWith('http')) {
  const linkDomain = new URL(href).hostname;
  if (linkDomain === domain) { internal++; internalUrlsSet.add(href); }
  else external++;
} else {
  const absoluteUrl = new URL(href, url).href;
  internal++; internalUrlsSet.add(absoluteUrl);
}
```
`pageUrl` is the page's own parsed URL, `domain` its hostname. -/
def classifyHref (pageUrl : UrlObj) (domain : List Char) (href0 : String) : LinkAction :=
  let href := jsTrim href0
  if href.data.isEmpty ∨ jsStartsWith href "#" ∨ jsStartsWith href "javascript:"
      ∨ jsStartsWith href "mailto:" ∨ jsStartsWith href "tel:" then
    .ignored
  else if jsStartsWith href "http" then
    match parseUrl href.data with
    | some u => if u.host = domain then .internalAdd href else .externalCount
    | none => .skipped
  else
    match resolveAgainst pageUrl href.data with
    | some u => .internalAdd ⟨refHref u⟩
    | none => .skipped

/-! ## Issues -/

structure IssueM where
  type : String
  message : String
  priority : String
  category : String
  deriving DecidableEq, Repr

/-! ## Orchestrator score pipeline
(src/lib/seo/orchestrator/seo-analysis-orchestrator.ts) -/

/-- A JavaScript score value: `some q` is a finite number, `none` stands for
`NaN`, `±Infinity` or a non-number value. -/
def RawScore := Option ℚ
  deriving DecidableEq

/-- `SEOAnalysisOrchestrator.validateScore`:
non-number/`NaN`/infinite → 0, otherwise clamp into `[0, 100]`. -/
def validateScore : RawScore → ℚ
  | none => 0
  | some q => max 0 (min 100 q)

/-- `SEOAnalysisOrchestrator.isValidScore`: finite number test. -/
def isValidScore : RawScore → Bool
  | none => false
  | some _ => true

/-- An analyzer's `data` record; only its `issues` field is relevant to the
claims (the remaining per-analyzer fields are opaque payload). -/
structure AnalyzerDataM where
  issues : List IssueM
  deriving DecidableEq, Repr

/-- Default `data` substituted for a failed analyzer
(`getDefaultAnalyzerData`: every default carries `issues: []`). -/
def defaultAnalyzerData : AnalyzerDataM := { issues := [] }

/-- Behaviour of one registered analyzer on the shared context: it either
returns a result or throws. -/
inductive AnalyzerRun where
  | ok (score : RawScore) (issues : List IssueM) (data : AnalyzerDataM)
  | throws (userMessage : String)

/-- One entry of the orchestrator's per-analyzer result list. -/
structure ResultM where
  score : RawScore
  issues : List IssueM
  data : AnalyzerDataM

/-- The high-priority error issue substituted for a failed analyzer. -/
def errorIssueFor (name userMessage : String) : IssueM :=
  { type := "error"
    message := "Error en análisis de " ++ name ++ ": " ++ userMessage
    priority := "high"
    category := "technical" }

/-- The per-analyzer fan-out of `performAnalysis`: a successful analyzer's
score is validated (clamped), a throwing analyzer is replaced by a
zero-score result carrying one error issue and default data. -/
def runAnalyzers (runs : List (String × AnalyzerRun)) : List (String × ResultM) :=
  runs.map fun p =>
    match p.2 with
    | .ok s iss d => (p.1, { score := some (validateScore s), issues := iss, data := d })
    | .throws msg =>
      (p.1, { score := some 0, issues := [errorIssueFor p.1 msg], data := defaultAnalyzerData })

/-- First association for a key. -/
def assocFind {β : Type} (n : String) : List (String × β) → Option β
  | [] => none
  | (k, v) :: t => if k = n then some v else assocFind n t

/-- `new Map(entries)` lookup: the last entry for a key wins. -/
def lookupLast (rs : List (String × ResultM)) (n : String) : Option ResultM :=
  assocFind n rs.reverse

/-- The fixed per-analyzer weight table of `combineAnalysisResults`, in
`Object.entries` order. -/
def weightTable : List (String × ℚ) :=
  [("title", 15/100), ("description", 11/100), ("headings", 11/100),
   ("technical", 11/100), ("keywords", 11/100), ("eat", 14/100),
   ("mobile", 10/100), ("images", 7/100), ("security", 7/100),
   ("performance", 4/100), ("links", 2/100)]

/-- `Math.round` on a finite number. -/
def jsRound (q : ℚ) : ℤ := ⌊q + 1/2⌋

/-- One step of the weighted accumulation loop of
`combineAnalysisResults` over `(overallScore, totalWeight, validAnalyzers)`. -/
def weightStep (rs : List (String × ResultM)) (acc : ℚ × ℚ × Nat)
    (nw : String × ℚ) : ℚ × ℚ × Nat :=
  match lookupLast rs nw.1 with
  | some r =>
    match r.score with
    | some s => (acc.1 + s * nw.2, acc.2.1 + nw.2, acc.2.2 + 1)
    | none => acc
  | none => acc

/-- The weighted accumulation loop of `combineAnalysisResults`. -/
def weightLoop (rs : List (String × ResultM)) : ℚ × ℚ × Nat :=
  weightTable.foldl (weightStep rs) (0, 0, 0)

/-- The values of the result map (unique keys, last entry wins), in
insertion order — used by the dead fallback branch. -/
def mapValues (rs : List (String × ResultM)) : List ResultM :=
  (rs.foldl
    (fun (acc : List (String × ResultM)) p =>
      (acc.filter (fun q => q.1 ≠ p.1)) ++ [p]) []).map (·.2)

/-- The overall-score computation of `combineAnalysisResults` followed by
the final `Math.round(overallScore)`:

```ts
if (totalWeight > 0 && validAnalyzers > 0)
  overallScore = Math.round((overallScore / totalWeight) * 100) / 100;
else if (validAnalyzers > 0) { /* simple average of valid scores */ }
else overallScore = 0;
...
overallScore: Math.round(overallScore)
``` -/
def fallbackAvg (rs : List (String × ResultM)) : ℚ :=
  let valid := (mapValues rs).filterMap (·.score)
  if valid.length > 0 then
    (jsRound ((valid.sum / valid.length) * 100) : ℚ) / 100
  else 0

def overallScorePreRound (rs : List (String × ResultM)) : ℚ :=
  let acc := weightLoop rs
  if 0 < acc.2.1 ∧ 0 < acc.2.2 then
    (jsRound ((acc.1 / acc.2.1) * 100) : ℚ) / 100
  else if 0 < acc.2.2 then fallbackAvg rs
  else 0

def combineOverall (rs : List (String × ResultM)) : ℤ :=
  jsRound (overallScorePreRound rs)

/-- Issue collection of `convertToLegacyFormat`: the issues of each
analyzer's `data` record, in the fixed section order, with `[]` for a
missing section.  The substituted per-analyzer error issues (stored in
`result.issues`, not in `result.data`) are not consulted. -/
def legacyIssues (rs : List (String × ResultM)) : List IssueM :=
  ["title", "description", "headings", "images", "technical", "keywords",
   "performance", "links", "mobile", "security", "eat"].foldr
    (fun n acc =>
      (match lookupLast rs n with
       | some r => r.data.issues
       | none => []) ++ acc) []

/-- The slice of the legacy `CompleteAnalysisResult` relevant to the claims. -/
structure LegacyResultM where
  overallScore : ℤ
  issues : List IssueM
  status : String
  deriving DecidableEq, Repr

/-- `performAnalysis` after a successful fetch/validation: fan out, combine,
convert (the page is reported with `status: 'success'` unconditionally). -/
def performAnalysisM (runs : List (String × AnalyzerRun)) : LegacyResultM :=
  let rs := runAnalyzers runs
  { overallScore := combineOverall rs
    issues := legacyIssues rs
    status := "success" }

/-- Modelled from the spec: the validated scores of the analyzers that did
*not* throw. -/
def specOkScores (runs : List (String × AnalyzerRun)) : List (String × ℚ) :=
  runs.filterMap fun p =>
    match p.2 with
    | .ok s _ _ => some (p.1, validateScore s)
    | .throws _ => none

/-- Modelled from the spec: weighted sum and weight total over the
non-failing analyzers only. -/
def specWeightAcc (runs : List (String × AnalyzerRun)) : ℚ × ℚ :=
  weightTable.foldl
    (fun acc nw =>
      match assocFind nw.1 (specOkScores runs).reverse with
      | some s => (acc.1 + s * nw.2, acc.2 + nw.2)
      | none => acc)
    ((0 : ℚ), (0 : ℚ))

/-- Modelled from the spec: the overall score §4.4/§8 claims — the weighted
average over the *non-failing* analyzers only, failed analyzers excluded
from both the numerator and the weight total (same double rounding). -/
def specCombineNonFailing (runs : List (String × AnalyzerRun)) : ℤ :=
  if 0 < (specWeightAcc runs).2 then
    jsRound ((jsRound (((specWeightAcc runs).1 / (specWeightAcc runs).2) * 100) : ℚ) / 100)
  else 0

/-! ## Crawl entrypoint (src/pages/api/analyze-unified.ts, POST)

The flow after the request URL has passed validation and normalization:
analyze the main page (with retries, abstracted into one outcome), build the
frontier from the sitemap data and the discovered internal links, process it
in batches of 5, aggregate the summary.  Real time, logging and the HTTP
envelope are not modelled; the retry wrapper is abstracted into the
per-URL outcome functions. -/

/-- Default of `CONFIG.MAX_INTERNAL_URLS`. -/
def MAX_INTERNAL_URLS : Nat := 99

/-- The per-page result slice consumed by the aggregation step. -/
structure PageResultM where
  url : String
  status : String
  seoScore : ℚ
  issues : List IssueM
  deriving DecidableEq, Repr

/-- `mainPageResult.technical.sitemap` as read by the entrypoint. -/
structure SitemapRefM where
  existsFlag : Bool
  urls : List String
  deriving DecidableEq, Repr

/-- The slice of a successful main-page analysis used by the entrypoint. -/
structure MainAnalysisM where
  page : PageResultM
  sitemap : Option SitemapRefM
  internalUrls : List String
  deriving DecidableEq, Repr

/-- Outcome of the main-page analysis after its retry wrapper. -/
inductive MainOutcome where
  | failed (errorType : String)
  | ok (m : MainAnalysisM)

/-- HTTP status chosen when the main-page analysis failed. -/
def statusForErrorType (t : String) : Nat :=
  if t = "timeout" then 408
  else if t = "network" then 502
  else if t = "url_format" then 400
  else if t = "validation" then 400
  else 500

/-- `Set.add` on an insertion-ordered string set. -/
def insertIfAbsent (s : List String) (x : String) : List String :=
  if x ∈ s then s else s ++ [x]

/-- Step 2 of the POST handler: frontier construction.  Sitemap URLs are
inserted first (skipping the two main-page URL strings by *exact string*
comparison), discovered internal links second, then the insertion-ordered
set is capped:

```ts
sitemap.urls.forEach(entry => {
  if (entry.url !== url && entry.url !== mainPageResult.url) set.add(entry.url); });
mainPageResult.links.internalUrls.forEach(u => { if (!set.has(u)) set.add(u); });
const urlsToAnalyze = Array.from(set).slice(0, CONFIG.MAX_INTERNAL_URLS);
``` -/
def sitemapSeed (requestUrl : String) (m : MainAnalysisM) : List String :=
  match m.sitemap with
  | some sm =>
    if sm.existsFlag then
      sm.urls.foldl
        (fun acc u =>
          if u ≠ requestUrl ∧ u ≠ m.page.url then insertIfAbsent acc u else acc) []
    else []
  | none => []

/-- The full insertion-ordered set before the cap: sitemap entries first,
then the discovered internal links. -/
def frontierSet (requestUrl : String) (m : MainAnalysisM) : List String :=
  m.internalUrls.foldl insertIfAbsent (sitemapSeed requestUrl m)

def buildFrontier (maxUrls : Nat) (requestUrl : String) (m : MainAnalysisM) : List String :=
  (frontierSet requestUrl m).take maxUrls

/-- Batch partition (`BATCH_SIZE = 5` hard-coded in the handler):
`for (let i = 0; i < urls.length; i += 5) batches.push(urls.slice(i, i + 5))`.
Structurally recursive on a fuel that always suffices (each step consumes at
least one URL, so the list length bounds the loop count). -/
def buildBatchesAux : Nat → List String → List (List String)
  | 0, _ => []
  | _ + 1, [] => []
  | fuel + 1, l => l.take 5 :: buildBatchesAux fuel (l.drop 5)

def buildBatches (l : List String) : List (List String) :=
  buildBatchesAux l.length l

/-- The substituted record for a page analysis whose promise was rejected
after its retries (`Promise.allSettled` rejection branch). -/
def failedPageRecord (u : String) : PageResultM :=
  { url := u, status := "failed", seoScore := 0, issues := [] }

/-- Process one batch: every URL yields exactly one result, a rejected
analysis is replaced by the failed record. -/
def processBatch (analyzeSub : String → Except Unit PageResultM)
    (b : List String) : List PageResultM :=
  b.map fun u =>
    match analyzeSub u with
    | .ok r => r
    | .error _ => failedPageRecord u

/-- The site-wide summary of Step 3. -/
structure SummaryM where
  totalPages : Nat
  successfulPages : Nat
  failedPages : Nat
  avgSeoScore : ℤ
  criticalIssues : Nat
  warningIssues : Nat
  successIssues : Nat
  deriving DecidableEq, Repr

/-- Step 3 of the POST handler: fold all page results into the summary. -/
def computeSummary (allResults : List PageResultM) : SummaryM :=
  let succ := allResults.filter fun r => r.status = "success"
  let allIssues := succ.flatMap (·.issues)
  { totalPages := allResults.length
    successfulPages := succ.length
    failedPages := allResults.length - succ.length
    avgSeoScore :=
      if 0 < succ.length then jsRound ((succ.map (·.seoScore)).sum / succ.length) else 0
    criticalIssues := (allIssues.filter fun i => i.type = "error").length
    warningIssues := (allIssues.filter fun i => i.type = "warning").length
    successIssues := (allIssues.filter fun i => i.type = "success").length }

/-- The two shapes the POST handler can answer with after URL validation:
an error response (with an HTTP status) or the unified multi-page report. -/
inductive PostResponse where
  | errorResponse (status : Nat)
  | report (summary : SummaryM) (pages : List PageResultM) (isMultiPage : Bool)
  deriving DecidableEq, Repr

/-- The POST handler after URL validation/normalization succeeded:
a failed main-page analysis short-circuits into an error response,
otherwise the frontier is built, batched, analyzed and aggregated. -/
def postModel (maxUrls : Nat) (requestUrl : String) (main : MainOutcome)
    (analyzeSub : String → Except Unit PageResultM) : PostResponse :=
  match main with
  | .failed t => .errorResponse (statusForErrorType t)
  | .ok m =>
    let frontier := buildFrontier maxUrls requestUrl m
    let allResults := m.page :: (buildBatches frontier).flatMap (processBatch analyzeSub)
    .report (computeSummary allResults) allResults (decide (1 < allResults.length))

/-- Discriminator: did the handler return the unified report? -/
def PostResponse.isReport : PostResponse → Bool
  | .errorResponse _ => false
  | .report _ _ _ => true

/-! ## Sitemap discovery (robots-sitemap utilities)

`fetchSitemapContent` and `analyzeSitemap`.  gzip decompression, text
decoding, the low-value regex set and the ISO-8601 validator are function
parameters; network fetching is an environment `String → Option (content,
isCompressed)` where `none` models a fetch/HTTP failure (throw).  The
recursion of `analyzeSitemap` carries no cycle guard in the source, so the
embedding is indexed by a recursion-depth budget (`fuel`); a `none` overall
result means the budget was insufficient, i.e. the computation has not
completed within that depth. -/

/-- Magic-byte sniffing: `bytes[0] === 0x1f && bytes[1] === 0x8b`
(out-of-range indexing yields `undefined`, hence `false`). -/
def gzipMagic : List Nat → Bool
  | b0 :: b1 :: _ => b0 = 0x1f && b1 = 0x8b
  | _ => false

/-- Payload handling of `fetchSitemapContent` (after a 2xx response):
gzip-sniffed payloads are decompressed, a failed decompression falls back
to decoding the raw bytes as text; the result is `(content, isCompressed)`
and no branch throws. -/
def fetchSitemapContentM (gunzip : List Nat → Option String)
    (decode : List Nat → String) (bytes : List Nat) : String × Bool :=
  if gzipMagic bytes then
    match gunzip bytes with
    | some s => (s, true)
    | none => (decode bytes, false)
  else (decode bytes, false)

/-- Try to match the regex `<TAG[^>]*>([^<]+)</TAG>` at the head of the
input; on success return the captured group and the remainder after the
whole match. -/
def tagMatchAt (openTag closeTag : List Char) (l : List Char) :
    Option (List Char × List Char) :=
  if isPre openTag l then
    let rest := l.drop openTag.length
    let afterAttrs := rest.dropWhile (fun c => c ≠ '>')
    match afterAttrs with
    | '>' :: body =>
      let seg := body.takeWhile (fun c => c ≠ '<')
      let after := body.drop seg.length
      if ¬ seg.isEmpty ∧ isPre closeTag after then
        some (seg, after.drop closeTag.length)
      else none
    | _ => none
  else none

/-- Global scan for `<TAG[^>]*>([^<]+)</TAG>` (the `match(..., 'gi')` loop);
the fuel starts at the input length and each step consumes at least one
character, so the scan is exhaustive. -/
def extractTagsAux (openTag closeTag : List Char) : Nat → List Char → List (List Char)
  | 0, _ => []
  | _ + 1, [] => []
  | n + 1, c :: t =>
    match tagMatchAt openTag closeTag (c :: t) with
    | some (seg, rem) => seg :: extractTagsAux openTag closeTag n rem
    | none => extractTagsAux openTag closeTag n t

/-- All captures of `/<loc[^>]*>([^<]+)<\/loc>/gi`. -/
def extractLocs (l : List Char) : List (List Char) :=
  extractTagsAux "<loc".data "</loc>".data l.length l

/-- First capture of the non-global `match` for a tag. -/
def firstTag (openTag closeTag : List Char) (l : List Char) : Option (List Char) :=
  (extractTagsAux openTag closeTag l.length l).head?

/-- Try to match `/<url[^>]*>/` at the head; on success return the
remainder after the matched tag. -/
def urlTagMatchAt (l : List Char) : Option (List Char) :=
  if isPre "<url".data l then
    let rest := l.drop 4
    let afterAttrs := rest.dropWhile (fun c => c ≠ '>')
    match afterAttrs with
    | '>' :: body => some body
    | _ => none
  else none

/-- `content.split(/<url[^>]*>/i)`. -/
def splitUrlBlocksAux : Nat → List Char → List Char → List (List Char)
  | 0, cur, _ => [cur.reverse]
  | _ + 1, cur, [] => [cur.reverse]
  | n + 1, cur, c :: t =>
    match urlTagMatchAt (c :: t) with
    | some rem => cur.reverse :: splitUrlBlocksAux n [] rem
    | none => splitUrlBlocksAux n (c :: cur) t

def splitUrlBlocks (l : List Char) : List (List Char) :=
  splitUrlBlocksAux l.length [] l

/-- `block.indexOf(sub)` prefix extraction: contents before the first
occurrence, `none` when absent (`indexOf === -1`). -/
def takeUntilSub (needle : List Char) : List Char → Option (List Char)
  | [] => if needle.isEmpty then some [] else none
  | c :: t =>
    if isPre needle (c :: t) then some []
    else (takeUntilSub needle t).map (c :: ·)

/-- `extractUrlsFromXML`: split into `<url>` blocks, keep each block's
`<loc>` capture (trimmed) plus its `<lastmod>` capture when it validates as
ISO-8601 (`isISO` is the regex-plus-`Date` validator, a parameter here). -/
def extractUrlsFromXML (isISO : String → Bool) (content : List Char) :
    List (String × Option String) :=
  ((splitUrlBlocks content).drop 1).foldr
    (fun block acc =>
      match takeUntilSub "</url>".data block with
      | none => acc
      | some urlContent =>
        match firstTag "<loc".data "</loc>".data urlContent with
        | none => acc
        | some seg =>
          let url := jsTrim ⟨seg⟩
          let lastMod :=
            match firstTag "<lastmod".data "</lastmod>".data urlContent with
            | some dseg =>
              let d := jsTrim ⟨dseg⟩
              if isISO d then some d else none
            | none => none
          (url, lastMod) :: acc)
    []

/-- `isValidUrl` in the sitemap utilities: parses and has an `http(s)`
protocol. -/
def isValidSitemapUrl (s : String) : Bool := (parseUrlS s).isSome

/-- The `isSpecificSitemap` test of `analyzeSitemap`. -/
def isSpecificSitemap (baseUrl : String) : Bool :=
  strContains baseUrl "sitemap" &&
    (jsEndsWith baseUrl ".xml" || jsEndsWith baseUrl ".xml.gz" || jsEndsWith baseUrl ".txt")

/-- Candidate sitemap URL list; `none` models the `new URL(...)` constructor
throwing on an unparseable base URL (which propagates out of
`analyzeSitemap`, since the list is built outside the `try`). -/
def sitemapCandidates (baseUrl : String) (robotsSitemap : Option String) :
    Option (List String) :=
  if isSpecificSitemap baseUrl then some [baseUrl]
  else
    match parseUrlS baseUrl with
    | none => none
    | some b =>
      let conv := ["/sitemap.xml", "/sitemap.xml.gz", "/sitemap_index.xml",
                   "/sitemap_index.xml.gz", "/sitemap.txt"].map
        fun p => String.mk (urlHref (withPathOf b p.data))
      some ((robotsSitemap.toList ++ conv).filter isValidSitemapUrl)

/-- `SitemapUrl` nodes produced by discovery. -/
structure SitemapUrlM where
  url : String
  lastModified : Option String
  isLowValue : Bool
  deriving DecidableEq, Repr

/-- The `SitemapAnalysis` result slice (fields `lastModified` — always
`null` in the code — and the real-time `responseTime` are omitted; note the
absence of any truncation flag in what `analyzeSitemap` returns). -/
structure SitemapAnalysisM where
  existsFlag : Bool
  accessible : Bool
  isValidXml : Bool
  totalUrls : Nat
  urls : List SitemapUrlM
  childSitemaps : List String
  issues : List IssueM
  isCompressed : Bool
  lowValueUrls : Nat
  deriving DecidableEq, Repr

/-- Collaborators of sitemap discovery. -/
structure SitemapEnv where
  fetch : String → Option (String × Bool)
  lowValue : String → Bool
  isISO : String → Bool

def issueWarn (msg : String) (priority : String) : IssueM :=
  { type := "warning", message := msg, priority := priority, category := "technical" }

def xmlDeclWarning : IssueM :=
  issueWarn "Sitemap XML no tiene declaración XML" "low"

def childFailIssue (child : String) : IssueM :=
  issueWarn ("Error al procesar sitemap hijo " ++ child) "low"

def noUrlsWarning : IssueM := issueWarn "Sitemap no contiene URLs" "medium"

def lowValueWarning (n : Nat) : IssueM :=
  issueWarn (Nat.repr n ++ " URLs de bajo valor detectadas (login, cart, etc.)") "medium"

def sitemapOkIssue : IssueM :=
  { type := "success", message := "Sitemap configurado correctamente"
    priority := "low", category := "technical" }

def plainTextWarning : IssueM :=
  issueWarn "Sitemap en formato texto plano en lugar de XML" "low"

def sitemapNotFound : SitemapAnalysisM :=
  { existsFlag := false, accessible := false, isValidXml := false
    totalUrls := 0, urls := [], childSitemaps := []
    issues := [{ type := "error", message := "Sitemap no encontrado o no accesible"
                 priority := "high", category := "technical" }]
    isCompressed := false, lowValueUrls := 0 }

/-- Shared tail of the XML branch: the empty-check, low-value-ratio and
all-fine issues, then the assembled result. -/
def finishXmlBranch (detectLowValue : Bool) (urls : List SitemapUrlM)
    (childSitemaps : List String) (issues0 : List IssueM)
    (isCompressed : Bool) : SitemapAnalysisM :=
  let issues1 := issues0 ++
    (if urls.isEmpty ∧ childSitemaps.isEmpty then [noUrlsWarning] else [])
  let lowCount := (urls.filter (·.isLowValue)).length
  let issues2 := issues1 ++
    (if detectLowValue ∧ (lowCount : ℚ) > (urls.length : ℚ) * (2/10) then
      [lowValueWarning lowCount] else [])
  let issues3 := if issues2.isEmpty then [sitemapOkIssue] else issues2
  { existsFlag := true, accessible := true, isValidXml := true
    totalUrls := urls.length, urls := urls, childSitemaps := childSitemaps
    issues := issues3, isCompressed := isCompressed, lowValueUrls := lowCount }

/-- The child-sitemap loop: each child is expanded with the recursive
procedure; a child that throws contributes a non-fatal warning, a child
whose expansion exceeds the remaining budget makes the whole run exceed the
budget (`none`). -/
def childLoop (recur : String → Option (Except Unit SitemapAnalysisM)) :
    List String → Option (List SitemapUrlM × List IssueM)
  | [] => some ([], [])
  | c :: rest =>
    match recur c with
    | none => none
    | some (.error _) =>
      match childLoop recur rest with
      | none => none
      | some (us, iss) => some (us, childFailIssue c :: iss)
    | some (.ok sa) =>
      match childLoop recur rest with
      | none => none
      | some (us, iss) => some (sa.urls ++ us, sa.issues ++ iss)

/-- Classification and processing of one fetched candidate's payload. -/
def processContent (recur : String → Option (Except Unit SitemapAnalysisM))
    (env : SitemapEnv) (maxChild maxUrls : Nat) (detectLowValue : Bool)
    (content : String) (isCompressed : Bool) : Option SitemapAnalysisM :=
  let hasXmlDecl := strContains content "<?xml"
  let hasUrlset := strContains content "<urlset"
  let hasIndex := strContains content "<sitemapindex"
  if hasUrlset ∨ hasIndex then
    let declIssues := if ¬ hasXmlDecl then [xmlDeclWarning] else []
    if hasIndex then
      let childSitemaps :=
        (((extractLocs content.data).map fun s => jsTrim ⟨s⟩).filter
          isValidSitemapUrl).take maxChild
      match childLoop recur childSitemaps with
      | none => none
      | some (us, childIssues) =>
        some (finishXmlBranch detectLowValue us childSitemaps
          (declIssues ++ childIssues) isCompressed)
    else
      let urls := ((extractUrlsFromXML env.isISO content.data).take maxUrls).map
        fun p => { url := p.1, lastModified := p.2
                   isLowValue := if detectLowValue then env.lowValue p.1 else false }
      some (finishXmlBranch detectLowValue urls [] declIssues isCompressed)
  else
    let lines := (splitOnNl content.data).filter fun l => ¬ (jsTrim ⟨l⟩).data.isEmpty
    let urls : List SitemapUrlM := (lines.take maxUrls).map
      fun l => { url := jsTrim ⟨l⟩, lastModified := none
                 isLowValue := if detectLowValue then env.lowValue ⟨l⟩ else false }
    let issues := if ¬ urls.isEmpty then [plainTextWarning] else []
    some { existsFlag := true, accessible := true, isValidXml := false
           totalUrls := urls.length, urls := urls, childSitemaps := []
           issues := issues, isCompressed := isCompressed
           lowValueUrls := (urls.filter (·.isLowValue)).length }

/-- The candidate loop: a candidate whose fetch fails is skipped, the first
successful fetch is processed and returned; no candidate left yields the
not-found result. -/
def tryCands (recur : String → Option (Except Unit SitemapAnalysisM))
    (env : SitemapEnv) (maxChild maxUrls : Nat) (detectLowValue : Bool) :
    List String → Option SitemapAnalysisM
  | [] => some sitemapNotFound
  | c :: rest =>
    match env.fetch c with
    | none => tryCands recur env maxChild maxUrls detectLowValue rest
    | some (content, isCompressed) =>
      processContent recur env maxChild maxUrls detectLowValue content isCompressed

/-- `analyzeSitemap`, indexed by a recursion-depth budget.  The outer
`Option` is budget exhaustion, the `Except` layer models the function
throwing (only possible from `new URL` on an unparseable base).  A child
recursion receives `undefined` for the robots hint and the same options
(the timeout that differs in the code is real time, not modelled). -/
def analyzeSitemapM (env : SitemapEnv) (maxChild maxUrls : Nat)
    (detectLowValue : Bool) :
    Nat → String → Option String → Option (Except Unit SitemapAnalysisM)
  | 0, _, _ => none
  | n + 1, baseUrl, robotsSitemap =>
    match sitemapCandidates baseUrl robotsSitemap with
    | none => some (.error ())
    | some cands =>
      match tryCands (fun u => analyzeSitemapM env maxChild maxUrls detectLowValue n u none)
          env maxChild maxUrls detectLowValue cands with
      | none => none
      | some sa => some (.ok sa)

/-! ## Structured URLs for the normalization-key claims

`RenderUrl` is a structured http(s) URL together with its textual rendering;
quantifying over well-formed `RenderUrl` values formalises "URLs that differ
only by a trailing slash / only by the default port". -/

structure RenderUrl where
  secure : Bool
  host : List Char
  port : Option Nat
  path : List Char
  query : List Char
  frag : List Char

def RenderUrl.scheme (r : RenderUrl) : List Char :=
  if r.secure then "https".data else "http".data

def renderUrl (r : RenderUrl) : String :=
  ⟨r.scheme ++ "://".data ++ r.host ++ portChars r.port ++ r.path ++ r.query ++ r.frag⟩

/-- Characters that may appear in a well-formed rendered host. -/
def okHostChar (c : Char) : Bool :=
  (!(isJsSpace c)) && c ≠ ':' && c ≠ '/' && c ≠ '?' && c ≠ '#'

/-- Characters that may appear in a well-formed rendered path. -/
def okPathChar (c : Char) : Bool :=
  (!(isJsSpace c)) && c ≠ '?' && c ≠ '#'

/-- Well-formedness of a structured URL, strong enough that the modelled
WHATWG parser round-trips on its rendering and `normalizeUrl` accepts it:
lower-case dotted host of length ≥ 3 without separator characters, a path
starting with `/` free of `?`/`#`, an optional query `?…` free of `#`, an
optional fragment `#…`, no whitespace anywhere, port at most 65535. -/
def RenderUrl.wf (r : RenderUrl) : Prop :=
  lowerChars r.host = r.host ∧ r.host.all okHostChar = true ∧
    containsSub ".".data r.host = true ∧ 3 ≤ r.host.length ∧
    r.path.head? = some '/' ∧ r.path.all okPathChar = true ∧
    (r.query = [] ∨ (∃ qs, r.query = '?' :: qs ∧ qs ≠ [] ∧
      r.query.all (fun c => (!(isJsSpace c)) && c ≠ '#') = true)) ∧
    (r.frag = [] ∨ (∃ fs, r.frag = '#' :: fs ∧
      r.frag.all (fun c => !(isJsSpace c)) = true)) ∧
    (∀ n, r.port = some n → n ≤ 65535)

/-- Port normalization performed by parsing: the scheme's default port is
elided. -/
def portNorm (scheme : List Char) : Option Nat → Option Nat
  | none => none
  | some n => if n = defaultPort scheme then none else some n

/-! ## Concrete inputs for the claim theorems -/

/-- Projection of a discovery outcome to its URL strings. -/
def resultUrls : Option (Except Unit SitemapAnalysisM) → List String
  | some (.ok sa) => sa.urls.map (·.url)
  | _ => []

/-- Projection of a discovery outcome to its total URL count. -/
def resultTotal : Option (Except Unit SitemapAnalysisM) → Nat
  | some (.ok sa) => sa.totalUrls
  | _ => 0

/-- A fetch environment whose sitemap index references two child sitemaps
that both list the same page URL. -/
def envDup : SitemapEnv :=
  { fetch := fun u =>
      if u = "https://site.example/sitemap.xml" then
        some ("<?xml version=\x221.0\x22?><sitemapindex><loc>https://site.example/sitemap-c1.xml</loc><loc>https://site.example/sitemap-c2.xml</loc></sitemapindex>", false)
      else if u = "https://site.example/sitemap-c1.xml" then
        some ("<?xml version=\x221.0\x22?><urlset><url><loc>https://site.example/p</loc></url></urlset>", false)
      else if u = "https://site.example/sitemap-c2.xml" then
        some ("<?xml version=\x221.0\x22?><urlset><url><loc>https://site.example/p</loc></url></urlset>", false)
      else none
    lowValue := fun _ => false
    isISO := fun _ => true }

/-- A fetch environment whose sitemap index references two child sitemaps
with one (distinct) page URL each. -/
def envTwo : SitemapEnv :=
  { fetch := fun u =>
      if u = "https://site.example/sitemap.xml" then
        some ("<?xml version=\x221.0\x22?><sitemapindex><loc>https://site.example/sitemap-c1.xml</loc><loc>https://site.example/sitemap-c2.xml</loc></sitemapindex>", false)
      else if u = "https://site.example/sitemap-c1.xml" then
        some ("<?xml version=\x221.0\x22?><urlset><url><loc>https://site.example/p1</loc></url></urlset>", false)
      else if u = "https://site.example/sitemap-c2.xml" then
        some ("<?xml version=\x221.0\x22?><urlset><url><loc>https://site.example/p2</loc></url></urlset>", false)
      else none
    lowValue := fun _ => false
    isISO := fun _ => true }

/-- A sitemap-index document that references itself. -/
def loopContent : String :=
  "<sitemapindex><loc>https://site.example/sitemap.xml</loc></sitemapindex>"

/-- A fetch environment whose sitemap index references itself. -/
def envLoop : SitemapEnv :=
  { fetch := fun u =>
      if u = "https://site.example/sitemap.xml" then some (loopContent, false)
      else none
    lowValue := fun _ => false
    isISO := fun _ => true }

/-- The page URL object `https://example.com/` used in link-classification
counterexamples. -/
def examplePage : UrlObj :=
  { scheme := "https".data, host := "example.com".data, port := none
    path := "/".data, search := [], frag := [] }

/-- Main-page analysis slice for the frontier counterexample: the sitemap
lists `https://example.com/a/`, link discovery found
`https://example.com/a` — same normalized key, different strings. -/
def mainDupPair : MainAnalysisM :=
  { page := { url := "https://example.com", status := "success", seoScore := 75, issues := [] }
    sitemap := some { existsFlag := true, urls := ["https://example.com/a/"] }
    internalUrls := ["https://example.com/a"] }

/-- Analyzer runs for the failed-analyzer counterexample: `title` scores 80,
`description` scores 100, `links` throws. -/
def cRuns : List (String × AnalyzerRun) :=
  [("title", .ok (some 80) [] { issues := [] }),
   ("description", .ok (some 100) [] { issues := [] }),
   ("links", .throws "fallo interno")]

/-- The per-URL analysis step applied by batch processing. -/
def subStep (analyzeSub : String → Except Unit PageResultM) (u : String) : PageResultM :=
  match analyzeSub u with
  | .ok r => r
  | .error _ => failedPageRecord u

/-! # Theorems -/

/-- **C1, counterexample.**  The claim says the crawl entrypoint returns a
report even if the analysis of every page including the main page fails.  It
does not: a main-page analysis that fails (here with a network error) makes
the handler return an HTTP 502 error response instead of a report, whatever
the sub-page analyses would do. -/
theorem post_main_failure_is_error_response :
    postModel MAX_INTERNAL_URLS "https://example.com" (.failed "network")
        (fun _ => .error ()) = .errorResponse 502 ∧
      (postModel MAX_INTERNAL_URLS "https://example.com" (.failed "network")
        (fun _ => .error ())).isReport = false := by
  constructor <;> rfl

/-- **C1, amended.**  Whenever the *main page* analysis succeeds, the
handler always returns the unified report — even if every frontier page
analysis fails: each frontier URL still yields exactly one (possibly
failed) page entry, and no sub-page failure can turn the response into an
error. -/
theorem post_reports_when_main_succeeds
    (maxUrls : Nat) (requestUrl : String) (m : MainAnalysisM)
    (analyzeSub : String → Except Unit PageResultM) :
    (postModel maxUrls requestUrl (.ok m) analyzeSub).isReport = true := by
  rfl

/-- **C7.**  Payloads whose first two bytes are `0x1f 0x8b` are gunzipped
before parsing; if decompression of such a payload fails the raw bytes are
decoded as text and processing continues — `fetchSitemapContent`'s payload
handling returns a content/flag pair in every case rather than raising. -/
theorem gzip_sniffing_and_fallback
    (gunzip : List Nat → Option String) (decode : List Nat → String)
    (bytes : List Nat) (hmagic : gzipMagic bytes = true) :
    (∀ s, gunzip bytes = some s →
      fetchSitemapContentM gunzip decode bytes = (s, true)) ∧
    (gunzip bytes = none →
      fetchSitemapContentM gunzip decode bytes = (decode bytes, false)) := by
  constructor
  · intro s hs
    simp [fetchSitemapContentM, hmagic, hs]
  · intro hs
    simp [fetchSitemapContentM, hmagic, hs]

/-- Witness for C7 at a concrete gzip-magic payload, once with a succeeding
and once with a failing decompressor. -/
theorem gzip_sniffing_and_fallback_witness :
    fetchSitemapContentM (fun _ => some "<urlset></urlset>") (fun _ => "raw")
        [0x1f, 0x8b, 8, 0] = ("<urlset></urlset>", true) ∧
      fetchSitemapContentM (fun _ => none) (fun _ => "raw")
        [0x1f, 0x8b, 8, 0] = ("raw", false) := by
  refine ⟨(gzip_sniffing_and_fallback (fun _ => some "<urlset></urlset>")
      (fun _ => "raw") [0x1f, 0x8b, 8, 0] (by decide)).1 _ rfl, ?_⟩
  exact (gzip_sniffing_and_fallback (fun _ => none)
      (fun _ => "raw") [0x1f, 0x8b, 8, 0] (by decide)).2 rfl

/-- **C3, counterexample.**  The frontier merge deduplicates by exact
string equality, not by the normalized key of link discovery: the sitemap
URL `https://example.com/a/` and the discovered URL `https://example.com/a`
have the same normalized key, yet both survive into the frontier. -/
theorem frontier_misses_normalized_duplicate :
    buildFrontier MAX_INTERNAL_URLS "https://example.com" mainDupPair
        = ["https://example.com/a/", "https://example.com/a"] ∧
      linkDedupKey "https://example.com/a/" = linkDedupKey "https://example.com/a" ∧
      (linkDedupKey "https://example.com/a").isSome = true := by
  refine ⟨by decide, by decide, by decide⟩

/-- **C6, counterexample.**  A protocol-relative href is resolved against
the page URL to a *different* host, yet the links analyzer classifies it as
internal and adds it to the internal URL set — refuting "internal only if
the resolved host matches the page's host exactly". -/
theorem protocol_relative_href_counted_internal :
    classifyHref examplePage "example.com".data "//evil.com/x"
        = .internalAdd "https://evil.com/x" ∧
      (resolveAgainst examplePage "//evil.com/x".data).map UrlObj.host
        = some "evil.com".data ∧
      "evil.com".data ≠ "example.com".data := by
  refine ⟨by decide, by decide, by decide⟩

/-- **C8, counterexample.**  `normalizeUrl` rewrites every URL to the
`https` scheme, so an `http` URL with its explicit default port 80 keeps
`:80` (no longer the default after the scheme switch) and gets a different
deduplication key than the same URL without the port. -/
theorem default_port_80_breaks_normalization :
    linkDedupKey "http://example.com:80/a" ≠ linkDedupKey "http://example.com/a" ∧
      (linkDedupKey "http://example.com:80/a").isSome = true ∧
      (linkDedupKey "http://example.com/a").isSome = true := by
  refine ⟨by decide, by decide, by decide⟩

/-! ### Batch partition lemmas -/

theorem buildBatchesAux_length :
    ∀ (fuel : Nat) (l : List String), l.length ≤ fuel →
      (buildBatchesAux fuel l).length = (l.length + 4) / 5 := by
  intro fuel
  induction fuel with
  | zero =>
    intro l h
    have : l = [] := List.eq_nil_of_length_eq_zero (Nat.le_zero.mp h)
    subst this
    rfl
  | succ n ih =>
    intro l h
    cases l with
    | nil => rfl
    | cons x t =>
      have hd : ((x :: t).drop 5).length ≤ n := by
        simp only [List.length_drop, List.length_cons] at h ⊢
        omega
      simp only [buildBatchesAux, List.length_cons, ih _ hd, List.length_drop]
      omega

theorem buildBatchesAux_join :
    ∀ (fuel : Nat) (l : List String), l.length ≤ fuel →
      (buildBatchesAux fuel l).flatMap id = l := by
  intro fuel
  induction fuel with
  | zero =>
    intro l h
    have : l = [] := List.eq_nil_of_length_eq_zero (Nat.le_zero.mp h)
    subst this
    rfl
  | succ n ih =>
    intro l h
    cases l with
    | nil => rfl
    | cons x t =>
      have hd : ((x :: t).drop 5).length ≤ n := by
        simp only [List.length_drop, List.length_cons] at h ⊢
        omega
      simp only [buildBatchesAux, List.flatMap_cons, ih _ hd, id]
      exact List.take_append_drop 5 (x :: t)

theorem buildBatchesAux_sizes :
    ∀ (fuel : Nat) (l : List String), ∀ b ∈ buildBatchesAux fuel l, b.length ≤ 5 := by
  intro fuel
  induction fuel with
  | zero => intro l b hb; simp [buildBatchesAux] at hb
  | succ n ih =>
    intro l b hb
    cases l with
    | nil => simp [buildBatchesAux] at hb
    | cons x t =>
      simp only [buildBatchesAux, List.mem_cons] at hb
      rcases hb with h | h
      · subst h
        simp [List.length_take]
      · exact ih _ _ h

theorem buildBatchesAux_process (f : String → Except Unit PageResultM) :
    ∀ (fuel : Nat) (l : List String), l.length ≤ fuel →
      (buildBatchesAux fuel l).flatMap (processBatch f) = l.map (subStep f) := by
  intro fuel
  induction fuel with
  | zero =>
    intro l h
    have : l = [] := List.eq_nil_of_length_eq_zero (Nat.le_zero.mp h)
    subst this
    rfl
  | succ n ih =>
    intro l h
    cases l with
    | nil => rfl
    | cons x t =>
      have hd : ((x :: t).drop 5).length ≤ n := by
        simp only [List.length_drop, List.length_cons] at h ⊢
        omega
      have hpb : processBatch f ((x :: t).take 5) = ((x :: t).take 5).map (subStep f) := rfl
      simp only [buildBatchesAux, List.flatMap_cons, ih _ hd, hpb, ← List.map_append,
        List.take_append_drop]

/-- **C9.**  The batch controller partitions the frontier into
`⌈n / 5⌉` consecutive batches of at most 5 URLs, preserving order (their
concatenation is the frontier; for 12 URLs the batch sizes are exactly
5, 5, 2), and every frontier URL yields exactly one result — a URL whose
analysis fails after its retries contributes a `Failed` record while all
other URLs of its own and later batches are still processed (the output is
the element-wise image of the whole frontier). -/
theorem batch_controller_partition (urls : List String)
    (f : String → Except Unit PageResultM) :
    (buildBatches urls).length = (urls.length + 4) / 5 ∧
      (∀ b ∈ buildBatches urls, b.length ≤ 5) ∧
      (buildBatches urls).flatMap id = urls ∧
      (buildBatches urls).flatMap (processBatch f) = urls.map (subStep f) ∧
      (buildBatches ["u1", "u2", "u3", "u4", "u5", "u6", "u7", "u8", "u9",
        "u10", "u11", "u12"]).map List.length = [5, 5, 2] := by
  refine ⟨buildBatchesAux_length _ _ le_rfl, ?_, buildBatchesAux_join _ _ le_rfl,
    buildBatchesAux_process f _ _ le_rfl, by decide⟩
  intro b hb
  exact buildBatchesAux_sizes _ _ b hb

/-! ### Frontier merge lemmas -/

theorem insertIfAbsent_append (acc : List String) (x : String) :
    ∃ t, insertIfAbsent acc x = acc ++ t := by
  unfold insertIfAbsent
  by_cases h : x ∈ acc
  · exact ⟨[], by simp [h]⟩
  · exact ⟨[x], by simp [h]⟩

theorem insertIfAbsent_nodup {acc : List String} (h : acc.Nodup) (x : String) :
    (insertIfAbsent acc x).Nodup := by
  unfold insertIfAbsent
  by_cases hx : x ∈ acc
  · simpa [hx]
  · simp only [hx, if_false]
    rw [List.nodup_append]
    exact ⟨h, List.nodup_singleton x, by simpa using hx⟩

theorem foldl_insertIfAbsent_append (l : List String) :
    ∀ acc, ∃ t, l.foldl insertIfAbsent acc = acc ++ t := by
  induction l with
  | nil => intro acc; exact ⟨[], by simp⟩
  | cons x r ih =>
    intro acc
    obtain ⟨t1, h1⟩ := insertIfAbsent_append acc x
    obtain ⟨t2, h2⟩ := ih (insertIfAbsent acc x)
    refine ⟨t1 ++ t2, ?_⟩
    rw [List.foldl_cons, h2, h1, List.append_assoc]

theorem foldl_insertIfAbsent_nodup (l : List String) :
    ∀ acc, acc.Nodup → (l.foldl insertIfAbsent acc).Nodup := by
  induction l with
  | nil => intro acc h; simpa
  | cons x r ih =>
    intro acc h
    exact ih _ (insertIfAbsent_nodup h x)

theorem sitemapSeed_nodup (requestUrl : String) (m : MainAnalysisM) :
    (sitemapSeed requestUrl m).Nodup := by
  unfold sitemapSeed
  cases m.sitemap with
  | none => exact List.nodup_nil
  | some sm =>
    by_cases he : sm.existsFlag
    · simp only [he, if_true]
      suffices h : ∀ (l : List String) (acc : List String), acc.Nodup →
          (l.foldl (fun acc u =>
            if u ≠ requestUrl ∧ u ≠ m.page.url then insertIfAbsent acc u else acc) acc).Nodup by
        exact h sm.urls [] List.nodup_nil
      intro l
      induction l with
      | nil => intro acc h; simpa
      | cons x r ih =>
        intro acc h
        simp only [List.foldl_cons]
        by_cases hc : x ≠ requestUrl ∧ x ≠ m.page.url
        · rw [if_pos hc]
          exact ih _ (insertIfAbsent_nodup h x)
        · rw [if_neg hc]
          exact ih _ h
    · simp [he]

/-- **C3, amended.**  The frontier merge deduplicates by *exact URL string*
(two distinct strings with the same normalized key both survive — see the
counterexample); what holds is: the merged set contains no duplicate
strings, sitemap entries are inserted first (the pre-cap set extends the
sitemap-seeded set), and the frontier is that insertion-ordered set capped
to the configured maximum, hence never longer than it. -/
theorem frontier_merge_amended (maxUrls : Nat) (requestUrl : String)
    (m : MainAnalysisM) :
    (buildFrontier maxUrls requestUrl m).Nodup ∧
      (buildFrontier maxUrls requestUrl m).length ≤ maxUrls ∧
      buildFrontier maxUrls requestUrl m = (frontierSet requestUrl m).take maxUrls ∧
      (∃ t, frontierSet requestUrl m = sitemapSeed requestUrl m ++ t) := by
  refine ⟨?_, ?_, rfl, foldl_insertIfAbsent_append _ _⟩
  · exact ((List.take_sublist _ _).nodup
      (foldl_insertIfAbsent_nodup _ _ (sitemapSeed_nodup requestUrl m)))
  · simpa [buildFrontier, List.length_take] using Nat.min_le_left _ _

/-! ### Score bounds -/

theorem validateScore_bounds (s : RawScore) :
    0 ≤ validateScore s ∧ validateScore s ≤ 100 := by
  cases s with
  | none => exact ⟨le_refl 0, by norm_num [validateScore]⟩
  | some q =>
    refine ⟨le_max_left 0 _, ?_⟩
    simp only [validateScore, max_le_iff]
    exact ⟨by norm_num, le_trans (min_le_left _ _) (le_refl _)⟩

theorem assocFind_mem {β : Type} {l : List (String × β)} {n : String} {r : β}
    (h : assocFind n l = some r) : (n, r) ∈ l := by
  induction l with
  | nil => simp [assocFind] at h
  | cons p t ih =>
    rcases p with ⟨k, v⟩
    rw [assocFind] at h
    by_cases hk : k = n
    · rw [if_pos hk] at h
      have hv : v = r := Option.some.inj h
      subst hk hv
      exact List.mem_cons_self _ _
    · rw [if_neg hk] at h
      exact List.mem_cons_of_mem _ (ih h)

theorem runAnalyzers_score_bound (runs : List (String × AnalyzerRun)) :
    ∀ p ∈ runAnalyzers runs, ∀ q, p.2.score = some q → 0 ≤ q ∧ q ≤ 100 := by
  intro p hp q hq
  simp only [runAnalyzers, List.mem_map] at hp
  obtain ⟨r, _, hr⟩ := hp
  cases hrun : r.2 with
  | ok s iss d =>
    rw [hrun] at hr
    rw [← hr] at hq
    simp only at hq
    have := validateScore_bounds s
    rw [← Option.some.inj hq]
    exact this
  | throws msg =>
    rw [hrun] at hr
    rw [← hr] at hq
    simp only at hq
    rw [← Option.some.inj hq]
    norm_num

theorem weightStep_lookup_none {rs : List (String × ResultM)} {nw : String × ℚ}
    (acc : ℚ × ℚ × Nat) (h : lookupLast rs nw.1 = none) :
    weightStep rs acc nw = acc := by
  unfold weightStep
  rw [h]

theorem weightStep_score_none {rs : List (String × ResultM)} {nw : String × ℚ}
    {r : ResultM} (acc : ℚ × ℚ × Nat) (h : lookupLast rs nw.1 = some r)
    (hs : r.score = none) : weightStep rs acc nw = acc := by
  unfold weightStep
  rw [h]
  show (match r.score with
        | some s => (acc.1 + s * nw.2, acc.2.1 + nw.2, acc.2.2 + 1)
        | none => acc) = acc
  rw [hs]

theorem weightStep_score_some {rs : List (String × ResultM)} {nw : String × ℚ}
    {r : ResultM} {q : ℚ} (acc : ℚ × ℚ × Nat) (h : lookupLast rs nw.1 = some r)
    (hs : r.score = some q) :
    weightStep rs acc nw = (acc.1 + q * nw.2, acc.2.1 + nw.2, acc.2.2 + 1) := by
  unfold weightStep
  rw [h]
  show (match r.score with
        | some s => (acc.1 + s * nw.2, acc.2.1 + nw.2, acc.2.2 + 1)
        | none => acc) = (acc.1 + q * nw.2, acc.2.1 + nw.2, acc.2.2 + 1)
  rw [hs]

theorem weightLoop_invariant (rs : List (String × ResultM))
    (H : ∀ p ∈ rs, ∀ q, p.2.score = some q → 0 ≤ q ∧ q ≤ 100) :
    ∀ (ws : List (String × ℚ)) (acc : ℚ × ℚ × Nat),
      (∀ w ∈ ws, 0 ≤ w.2) → 0 ≤ acc.1 → acc.1 ≤ 100 * acc.2.1 → 0 ≤ acc.2.1 →
      0 ≤ (ws.foldl (weightStep rs) acc).1 ∧
        (ws.foldl (weightStep rs) acc).1 ≤ 100 * (ws.foldl (weightStep rs) acc).2.1 ∧
        0 ≤ (ws.foldl (weightStep rs) acc).2.1 := by
  intro ws
  induction ws with
  | nil => intro acc _ h1 h2 h3; exact ⟨h1, h2, h3⟩
  | cons w ws ih =>
    intro acc hws h1 h2 h3
    simp only [List.foldl_cons]
    have hw : 0 ≤ w.2 := hws w (List.mem_cons_self w ws)
    have hws' : ∀ x ∈ ws, 0 ≤ x.2 := fun x hx => hws x (List.mem_cons_of_mem w hx)
    cases hlk : lookupLast rs w.1 with
    | none =>
      rw [weightStep_lookup_none acc hlk]
      exact ih acc hws' h1 h2 h3
    | some r =>
      cases hsc : r.score with
      | none =>
        rw [weightStep_score_none acc hlk hsc]
        exact ih acc hws' h1 h2 h3
      | some q =>
        rw [weightStep_score_some acc hlk hsc]
        have hmem : (w.1, r) ∈ rs := by
          have := assocFind_mem (l := rs.reverse) (n := w.1) (r := r) hlk
          exact List.mem_reverse.mp this
        have hs := H (w.1, r) hmem q hsc
        refine ih (acc.1 + q * w.2, acc.2.1 + w.2, acc.2.2 + 1) hws' ?_ ?_ ?_
        · exact add_nonneg h1 (mul_nonneg hs.1 hw)
        · show acc.1 + q * w.2 ≤ 100 * (acc.2.1 + w.2)
          have hmul : q * w.2 ≤ 100 * w.2 := mul_le_mul_of_nonneg_right hs.2 hw
          linarith
        · exact add_nonneg h3 hw

theorem weightTable_nonneg : ∀ w ∈ weightTable, (0 : ℚ) ≤ w.2 := by
  intro w hw
  fin_cases hw <;> norm_num

theorem jsRound_nonneg {q : ℚ} (h : 0 ≤ q) : 0 ≤ jsRound q := by
  unfold jsRound
  positivity

theorem jsRound_le_int {q : ℚ} {B : ℤ} (h : q ≤ (B : ℚ)) : jsRound q ≤ B := by
  unfold jsRound
  have h1 : q + 1 / 2 ≤ (B : ℚ) + 1 / 2 := by linarith
  calc ⌊q + 1 / 2⌋ ≤ ⌊(B : ℚ) + 1 / 2⌋ := Int.floor_le_floor h1
    _ = ⌊(1 : ℚ) / 2 + B⌋ := by ring_nf
    _ = ⌊(1 : ℚ) / 2⌋ + B := Int.floor_add_int _ _
    _ = B := by norm_num

theorem sum_bounds {l : List ℚ} (h : ∀ x ∈ l, 0 ≤ x ∧ x ≤ 100) :
    0 ≤ l.sum ∧ l.sum ≤ 100 * l.length := by
  induction l with
  | nil => simp
  | cons x t ih =>
    have hx := h x (List.mem_cons_self x t)
    have ht := ih fun y hy => h y (List.mem_cons_of_mem x hy)
    simp only [List.sum_cons, List.length_cons]
    constructor
    · exact add_nonneg hx.1 ht.1
    · push_cast
      calc x + t.sum ≤ 100 + 100 * t.length := by linarith [ht.2]
        _ = 100 * ((t.length : ℚ) + 1) := by ring

theorem foldl_dedup_subset :
    ∀ (l acc : List (String × ResultM)),
      ∀ p ∈ l.foldl (fun (acc : List (String × ResultM)) p =>
        (acc.filter (fun q => q.1 ≠ p.1)) ++ [p]) acc, p ∈ l ∨ p ∈ acc := by
  intro l
  induction l with
  | nil => intro acc p hp; right; exact hp
  | cons x t ih =>
    intro acc p hp
    simp only [List.foldl_cons] at hp
    rcases ih _ p hp with hmem | hmem
    · left; exact List.mem_cons_of_mem x hmem
    · rcases List.mem_append.mp hmem with hf | hx
      · right; exact (List.mem_filter.mp hf).1
      · left
        rw [List.mem_singleton.mp hx]
        exact List.mem_cons_self x t

theorem mapValues_mem (rs : List (String × ResultM)) :
    ∀ r ∈ mapValues rs, ∃ n, (n, r) ∈ rs := by
  intro r hr
  unfold mapValues at hr
  rcases List.mem_map.mp hr with ⟨p, hp, hpr⟩
  rcases foldl_dedup_subset rs [] p hp with hmem | hmem
  · refine ⟨p.1, ?_⟩
    rw [← hpr, Prod.mk.eta]
    exact hmem
  · simp at hmem

theorem fallbackAvg_eq (rs : List (String × ResultM)) :
    fallbackAvg rs =
      if ((mapValues rs).filterMap (·.score)).length > 0 then
        (jsRound ((((mapValues rs).filterMap (·.score)).sum /
          ((mapValues rs).filterMap (·.score)).length) * 100) : ℚ) / 100
      else 0 := rfl

theorem overallScorePreRound_eq (rs : List (String × ResultM)) :
    overallScorePreRound rs =
      if 0 < (weightLoop rs).2.1 ∧ 0 < (weightLoop rs).2.2 then
        (jsRound (((weightLoop rs).1 / (weightLoop rs).2.1) * 100) : ℚ) / 100
      else if 0 < (weightLoop rs).2.2 then fallbackAvg rs
      else 0 := rfl

theorem overallScorePreRound_bounds (rs : List (String × ResultM))
    (H : ∀ p ∈ rs, ∀ q, p.2.score = some q → 0 ≤ q ∧ q ≤ 100) :
    0 ≤ overallScorePreRound rs ∧ overallScorePreRound rs ≤ 100 := by
  have hw' : 0 ≤ (weightLoop rs).1 ∧ (weightLoop rs).1 ≤ 100 * (weightLoop rs).2.1 ∧
      0 ≤ (weightLoop rs).2.1 :=
    weightLoop_invariant rs H weightTable (0, 0, 0) weightTable_nonneg
      (le_refl 0) (by norm_num) (le_refl 0)
  rw [overallScorePreRound_eq]
  by_cases hcond : 0 < (weightLoop rs).2.1 ∧ 0 < (weightLoop rs).2.2
  · rw [if_pos hcond]
    have hdiv1 : (weightLoop rs).1 / (weightLoop rs).2.1 ≤ 100 := by
      rw [div_le_iff hcond.1]
      linarith [hw'.2.1]
    have hq0 : (0 : ℚ) ≤ (weightLoop rs).1 / (weightLoop rs).2.1 * 100 := by
      have := div_nonneg hw'.1 hw'.2.2
      positivity
    have hq1 : (weightLoop rs).1 / (weightLoop rs).2.1 * 100 ≤ ((10000 : ℤ) : ℚ) := by
      push_cast
      linarith
    have hr0 := jsRound_nonneg hq0
    have hr1 := jsRound_le_int hq1
    constructor
    · positivity
    · rw [div_le_iff (by norm_num : (0:ℚ) < 100)]
      calc ((jsRound ((weightLoop rs).1 / (weightLoop rs).2.1 * 100) : ℚ))
          ≤ ((10000 : ℤ) : ℚ) := by exact_mod_cast hr1
        _ = 100 * 100 := by norm_num
  · rw [if_neg hcond]
    by_cases hcnt : 0 < (weightLoop rs).2.2
    · rw [if_pos hcnt, fallbackAvg_eq]
      have hvb : ∀ x ∈ (mapValues rs).filterMap (·.score), 0 ≤ x ∧ x ≤ 100 := by
        intro x hx
        simp only [List.mem_filterMap] at hx
        obtain ⟨r, hr, hsc⟩ := hx
        obtain ⟨n, hn⟩ := mapValues_mem rs r hr
        exact H (n, r) hn x hsc
      have hsum := sum_bounds hvb
      by_cases hlen : ((mapValues rs).filterMap (·.score)).length > 0
      · rw [if_pos hlen]
        have hlpos : (0 : ℚ) < ((mapValues rs).filterMap (·.score)).length := by
          exact_mod_cast hlen
        have hdiv1 : ((mapValues rs).filterMap (·.score)).sum /
            ((mapValues rs).filterMap (·.score)).length ≤ 100 := by
          rw [div_le_iff hlpos]
          linarith [hsum.2]
        have hq0 : (0 : ℚ) ≤ ((mapValues rs).filterMap (·.score)).sum /
            ((mapValues rs).filterMap (·.score)).length * 100 := by
          have := div_nonneg hsum.1 (le_of_lt hlpos)
          positivity
        have hq1 : ((mapValues rs).filterMap (·.score)).sum /
            ((mapValues rs).filterMap (·.score)).length * 100 ≤ ((10000 : ℤ) : ℚ) := by
          push_cast
          linarith
        have hr0 := jsRound_nonneg hq0
        have hr1 := jsRound_le_int hq1
        constructor
        · positivity
        · rw [div_le_iff (by norm_num : (0:ℚ) < 100)]
          calc ((jsRound (((mapValues rs).filterMap (·.score)).sum /
                ((mapValues rs).filterMap (·.score)).length * 100) : ℚ))
              ≤ ((10000 : ℤ) : ℚ) := by exact_mod_cast hr1
            _ = 100 * 100 := by norm_num
      · rw [if_neg hlen]
        norm_num
    · rw [if_neg hcnt]
      norm_num

theorem combineOverall_bounds (rs : List (String × ResultM))
    (H : ∀ p ∈ rs, ∀ q, p.2.score = some q → 0 ≤ q ∧ q ≤ 100) :
    0 ≤ combineOverall rs ∧ combineOverall rs ≤ 100 := by
  have hb := overallScorePreRound_bounds rs H
  unfold combineOverall
  constructor
  · exact jsRound_nonneg hb.1
  · exact jsRound_le_int (by exact_mod_cast hb.2)

/-- **C10.**  For every set of analyzer outputs — including scores that are
`NaN`, infinite, negative or above 100 (`none` and out-of-range rationals in
the model) — each successful analyzer's score is clamped into `[0, 100]`
by `validateScore` before combining, and the overall score the orchestrator
reports is an integer in `[0, 100]`. -/
theorem orchestrator_score_in_range (runs : List (String × AnalyzerRun)) :
    (∀ s : RawScore, 0 ≤ validateScore s ∧ validateScore s ≤ 100) ∧
      0 ≤ (performAnalysisM runs).overallScore ∧
      (performAnalysisM runs).overallScore ≤ 100 := by
  refine ⟨validateScore_bounds, ?_, ?_⟩
  · exact (combineOverall_bounds _ (runAnalyzers_score_bound runs)).1
  · exact (combineOverall_bounds _ (runAnalyzers_score_bound runs)).2

/-- **C2, counterexample.**  Three analyzers, `links` throwing: the page is
still `success`, but (a) the overall score is 82, not the 88 that a weighted
average over the two non-failing analyzers would give — the failed
analyzer's substituted zero participates with its weight — and (b) the final
issue list contains *no* error issue naming the failed analyzer (the
substituted issue lives in `result.issues`, while `convertToLegacyFormat`
collects issues from each analyzer's `data`, which for a failed analyzer is
the default with an empty issue list). -/
theorem failed_analyzer_not_excluded :
    performAnalysisM cRuns = { overallScore := 82, issues := [], status := "success" } ∧
      specCombineNonFailing cRuns = 88 ∧
      (82 : ℤ) ≠ 88 := by
  have hscore : combineOverall (runAnalyzers cRuns) = 82 := by
    unfold combineOverall
    rw [overallScorePreRound_eq]
    have hloop : weightLoop (runAnalyzers cRuns) =
        (0 + validateScore (some 80) * (15/100) + validateScore (some 100) * (11/100)
          + 0 * (2/100), 0 + 15/100 + 11/100 + 2/100, 3) := rfl
    rw [hloop]
    norm_num [validateScore, jsRound]
  have hiss : legacyIssues (runAnalyzers cRuns) = [] := by decide
  have hspec : specCombineNonFailing cRuns = 88 := by
    unfold specCombineNonFailing
    have hacc : specWeightAcc cRuns =
        (0 + validateScore (some 80) * (15/100) + validateScore (some 100) * (11/100),
         0 + 15/100 + 11/100) := rfl
    rw [hacc]
    norm_num [validateScore, jsRound]
  refine ⟨?_, hspec, by norm_num⟩
  show LegacyResultM.mk (combineOverall (runAnalyzers cRuns))
      (legacyIssues (runAnalyzers cRuns)) "success" = _
  rw [hscore, hiss]

/-- **C2, amended.**  With analyzers `title` and `description` succeeding
and `links` throwing: the orchestrator still reports `status = success`;
the failed analyzer is replaced by a zero-score result carrying exactly one
high-priority error issue naming it, and the other analyzers' validated
results are unchanged; but the overall score is the weighted average *with*
the failed analyzer's zero and weight included, and the final issue list is
the concatenation of the successful analyzers' data issues — the
substituted error issue does not reach it. -/
theorem failed_analyzer_amended (s1 s2 : RawScore) (iss1 iss2 : List IssueM)
    (d1 d2 : AnalyzerDataM) (msg : String) :
    runAnalyzers [("title", .ok s1 iss1 d1), ("description", .ok s2 iss2 d2),
        ("links", .throws msg)] =
      [("title", { score := some (validateScore s1), issues := iss1, data := d1 }),
       ("description", { score := some (validateScore s2), issues := iss2, data := d2 }),
       ("links", { score := some 0, issues := [errorIssueFor "links" msg],
                   data := defaultAnalyzerData })] ∧
      performAnalysisM [("title", .ok s1 iss1 d1), ("description", .ok s2 iss2 d2),
          ("links", .throws msg)] =
        { overallScore := jsRound ((jsRound (((0 + validateScore s1 * (15/100)
              + validateScore s2 * (11/100) + 0 * (2/100))
              / (0 + 15/100 + 11/100 + 2/100)) * 100) : ℚ) / 100)
          issues := d1.issues ++ d2.issues
          status := "success" } := by
  refine ⟨rfl, ?_⟩
  have hscore : combineOverall (runAnalyzers [("title", .ok s1 iss1 d1),
      ("description", .ok s2 iss2 d2), ("links", .throws msg)]) =
      jsRound ((jsRound (((0 + validateScore s1 * (15/100)
        + validateScore s2 * (11/100) + 0 * (2/100))
        / (0 + 15/100 + 11/100 + 2/100)) * 100) : ℚ) / 100) := by
    unfold combineOverall
    rw [overallScorePreRound_eq]
    have hloop : weightLoop (runAnalyzers [("title", .ok s1 iss1 d1),
        ("description", .ok s2 iss2 d2), ("links", .throws msg)]) =
        (0 + validateScore s1 * (15/100) + validateScore s2 * (11/100) + 0 * (2/100),
         0 + 15/100 + 11/100 + 2/100, 3) := rfl
    rw [hloop]
    have hcond : (0 : ℚ) < 0 + 15/100 + 11/100 + 2/100 ∧ (0 : Nat) < 3 :=
      ⟨by norm_num, by norm_num⟩
    rw [if_pos hcond]
  have hiss : legacyIssues (runAnalyzers [("title", .ok s1 iss1 d1),
      ("description", .ok s2 iss2 d2), ("links", .throws msg)]) =
      d1.issues ++ d2.issues := by
    show d1.issues ++ (d2.issues ++ []) = d1.issues ++ d2.issues
    simp
  show LegacyResultM.mk (combineOverall (runAnalyzers [("title", .ok s1 iss1 d1),
      ("description", .ok s2 iss2 d2), ("links", .throws msg)]))
      (legacyIssues (runAnalyzers [("title", .ok s1 iss1 d1),
        ("description", .ok s2 iss2 d2), ("links", .throws msg)])) "success" = _
  rw [hscore, hiss]

/-! ### Sitemap discovery lemmas -/

set_option maxRecDepth 100000 in
/-- **C4, counterexample.**  Discovery does not deduplicate by URL: two
child sitemaps listing the same page URL yield that URL twice in the
result.  Nor is the merged list truncated to the configurable maximum:
with `maxUrls = 1`, two children of one URL each still produce
`totalUrls = 2`. -/
theorem sitemap_duplicates_and_overflow :
    resultUrls (analyzeSitemapM envDup 50 1000 true 3 "https://site.example" none)
        = ["https://site.example/p", "https://site.example/p"] ∧
      ¬ (["https://site.example/p", "https://site.example/p"] : List String).Nodup ∧
      resultTotal (analyzeSitemapM envTwo 50 1 true 3 "https://site.example" none) = 2 := by
  refine ⟨?_, by decide, ?_⟩
  · rfl
  · rfl

theorem finishXmlBranch_urls (detect : Bool) (urls : List SitemapUrlM)
    (cs : List String) (iss : List IssueM) (ic : Bool) :
    (finishXmlBranch detect urls cs iss ic).urls = urls ∧
      (finishXmlBranch detect urls cs iss ic).totalUrls = urls.length := ⟨rfl, rfl⟩

/-- **C4, amended.**  What holds of discovery: for a `urlset` document the
URL list is the extracted list truncated to the configurable maximum (so
never longer than it), and `totalUrls` records the resulting count; but
duplicates are not removed, a sitemap-index merge has no overall cap, and
no field of the result records whether truncation occurred. -/
theorem sitemap_urlset_truncated (env : SitemapEnv) (maxChild maxUrls : Nat)
    (detect : Bool) (content : String) (isCompressed : Bool)
    (recur : String → Option (Except Unit SitemapAnalysisM))
    (hu : strContains content "<urlset" = true)
    (hi : strContains content "<sitemapindex" = false) :
    ∃ sa, processContent recur env maxChild maxUrls detect content isCompressed = some sa ∧
      sa.urls = ((extractUrlsFromXML env.isISO content.data).take maxUrls).map
        (fun p => { url := p.1, lastModified := p.2
                    isLowValue := if detect then env.lowValue p.1 else false }) ∧
      sa.urls.length ≤ maxUrls ∧
      sa.totalUrls = sa.urls.length := by
  have hmain : processContent recur env maxChild maxUrls detect content isCompressed =
      some (finishXmlBranch detect
        (((extractUrlsFromXML env.isISO content.data).take maxUrls).map
          (fun p => { url := p.1, lastModified := p.2
                      isLowValue := if detect then env.lowValue p.1 else false }))
        [] (if ¬ strContains content "<?xml" = true then [xmlDeclWarning] else [])
        isCompressed) := by
    simp only [processContent]
    rw [if_pos (Or.inl hu), if_neg (by simp [hi])]
  refine ⟨_, hmain, (finishXmlBranch_urls _ _ _ _ _).1, ?_, ?_⟩
  · rw [(finishXmlBranch_urls _ _ _ _ _).1]
    simpa using Nat.min_le_left _ _
  · rw [(finishXmlBranch_urls _ _ _ _ _).1, (finishXmlBranch_urls _ _ _ _ _).2]

/-- Witness for C4's amended theorem at a concrete one-URL urlset with
`maxUrls = 1`. -/
theorem sitemap_urlset_truncated_witness :
    ∃ sa, processContent (fun _ => none) envDup 50 1 true
        "<urlset><url><loc>https://site.example/p</loc></url><url><loc>https://site.example/q</loc></url></urlset>"
        false = some sa ∧
      sa.urls = [{ url := "https://site.example/p", lastModified := none, isLowValue := false }] ∧
      sa.urls.length ≤ 1 ∧ sa.totalUrls = sa.urls.length := by
  obtain ⟨sa, h1, h2, h3, h4⟩ := sitemap_urlset_truncated envDup 50 1 true
    "<urlset><url><loc>https://site.example/p</loc></url><url><loc>https://site.example/q</loc></url></urlset>"
    false (fun _ => none) (by decide) (by decide)
  refine ⟨sa, h1, ?_, h3, h4⟩
  rw [h2]
  rfl

theorem tryCands_loop (recur : String → Option (Except Unit SitemapAnalysisM)) :
    tryCands recur envLoop 50 1000 true
        ["https://site.example/sitemap.xml", "https://site.example/sitemap.xml.gz",
         "https://site.example/sitemap_index.xml",
         "https://site.example/sitemap_index.xml.gz", "https://site.example/sitemap.txt"] =
      processContent recur envLoop 50 1000 true loopContent false := rfl

theorem tryCands_loop_self (recur : String → Option (Except Unit SitemapAnalysisM)) :
    tryCands recur envLoop 50 1000 true ["https://site.example/sitemap.xml"] =
      processContent recur envLoop 50 1000 true loopContent false := rfl

theorem processContent_loop (recur : String → Option (Except Unit SitemapAnalysisM)) :
    processContent recur envLoop 50 1000 true loopContent false =
      match childLoop recur ["https://site.example/sitemap.xml"] with
      | none => none
      | some (us, childIssues) =>
        some (finishXmlBranch true us ["https://site.example/sitemap.xml"]
          ([xmlDeclWarning] ++ childIssues) false) := rfl

theorem childLoop_single_none {recur : String → Option (Except Unit SitemapAnalysisM)}
    {c : String} (h : recur c = none) : childLoop recur [c] = none := by
  unfold childLoop
  rw [h]

theorem loopS_none :
    ∀ n, analyzeSitemapM envLoop 50 1000 true n "https://site.example/sitemap.xml" none
      = none := by
  intro n
  induction n with
  | zero => rfl
  | succ n ih =>
    have h1 : analyzeSitemapM envLoop 50 1000 true (n + 1)
        "https://site.example/sitemap.xml" none =
        match tryCands (fun u => analyzeSitemapM envLoop 50 1000 true n u none)
          envLoop 50 1000 true ["https://site.example/sitemap.xml"] with
        | none => none
        | some sa => some (.ok sa) := rfl
    rw [h1, tryCands_loop_self, processContent_loop,
      childLoop_single_none (c := "https://site.example/sitemap.xml") ih]

theorem loopT_none :
    ∀ n, analyzeSitemapM envLoop 50 1000 true n "https://site.example" none = none := by
  intro n
  cases n with
  | zero => rfl
  | succ n =>
    have h1 : analyzeSitemapM envLoop 50 1000 true (n + 1) "https://site.example" none =
        match tryCands (fun u => analyzeSitemapM envLoop 50 1000 true n u none)
          envLoop 50 1000 true
          ["https://site.example/sitemap.xml", "https://site.example/sitemap.xml.gz",
           "https://site.example/sitemap_index.xml",
           "https://site.example/sitemap_index.xml.gz",
           "https://site.example/sitemap.txt"] with
        | none => none
        | some sa => some (.ok sa) := rfl
    rw [h1, tryCands_loop, processContent_loop,
      childLoop_single_none (c := "https://site.example/sitemap.xml") (loopS_none n)]

/-- **C5, counterexample.**  The recursive traversal does *not* terminate on
every input: when a sitemap-index references itself and every fetch of it
succeeds, no recursion-depth budget, however large, lets the traversal
complete — the per-level child cap bounds only breadth and the per-fetch
timeout does not bound depth. -/
theorem selfreferential_sitemap_never_completes :
    ¬ ∃ (fuel : Nat) (r : Except Unit SitemapAnalysisM),
        analyzeSitemapM envLoop 50 1000 true fuel "https://site.example" none = some r := by
  rintro ⟨n, r, h⟩
  rw [loopT_none n] at h
  exact Option.noConfusion h

theorem finishXmlBranch_children (detect : Bool) (urls : List SitemapUrlM)
    (cs : List String) (iss : List IssueM) (ic : Bool) :
    (finishXmlBranch detect urls cs iss ic).childSitemaps = cs := rfl

theorem processContent_child_bound {recur : String → Option (Except Unit SitemapAnalysisM)}
    {env : SitemapEnv} {mc mu : Nat} {d : Bool} {content : String} {ic : Bool}
    {sa : SitemapAnalysisM}
    (h : processContent recur env mc mu d content ic = some sa) :
    sa.childSitemaps.length ≤ mc := by
  simp only [processContent] at h
  split at h
  · split at h
    · split at h
      · exact absurd h (by simp)
      · have hs := Option.some.inj h
        rw [← hs, finishXmlBranch_children]
        simpa using Nat.min_le_left _ _
    · have hs := Option.some.inj h
      rw [← hs, finishXmlBranch_children]
      simp
  · have hs := Option.some.inj h
    rw [← hs]
    simp

theorem tryCands_child_bound {recur : String → Option (Except Unit SitemapAnalysisM)}
    {env : SitemapEnv} {mc mu : Nat} {d : Bool} :
    ∀ (cands : List String) (sa : SitemapAnalysisM),
      tryCands recur env mc mu d cands = some sa → sa.childSitemaps.length ≤ mc := by
  intro cands
  induction cands with
  | nil =>
    intro sa h
    have hs : sitemapNotFound = sa := Option.some.inj h
    rw [← hs]
    simp [sitemapNotFound]
  | cons c rest ih =>
    intro sa h
    rw [tryCands] at h
    split at h
    · exact ih _ h
    · exact processContent_child_bound h

/-- **C5, amended.**  The recursion carries no cycle guard and need not
terminate (see the counterexample); what the configured caps do bound is
breadth, not depth: every completed discovery result expands at most
`maxChildSitemaps` child sitemaps at its level. -/
theorem sitemap_child_breadth_bounded (env : SitemapEnv) (mc mu : Nat) (d : Bool)
    (fuel : Nat) (baseUrl : String) (robots : Option String) (sa : SitemapAnalysisM)
    (h : analyzeSitemapM env mc mu d fuel baseUrl robots = some (.ok sa)) :
    sa.childSitemaps.length ≤ mc := by
  cases fuel with
  | zero => exact absurd h (by simp [analyzeSitemapM])
  | succ n =>
    rw [analyzeSitemapM] at h
    split at h
    · simp at h
    · split at h
      · exact absurd h (by simp)
      · rename_i sa' heq
        have hsa : sa' = sa := by simpa using h
        rw [← hsa]
        exact tryCands_child_bound _ _ heq

set_option maxRecDepth 100000 in
/-- Witness for C5's amended theorem on the two-child environment. -/
theorem sitemap_child_breadth_bounded_witness :
    ∃ sa, analyzeSitemapM envDup 50 1000 true 3 "https://site.example" none
        = some (.ok sa) ∧ sa.childSitemaps.length ≤ 50 := by
  refine ⟨_, rfl, sitemap_child_breadth_bounded envDup 50 1000 true 3
    "https://site.example" none _ rfl⟩

/-! ### Link classification lemmas -/

theorem classifyHref_eq (p : UrlObj) (d : List Char) (href0 : String) :
    classifyHref p d href0 =
      if (jsTrim href0).data.isEmpty = true ∨ jsStartsWith (jsTrim href0) "#" = true
          ∨ jsStartsWith (jsTrim href0) "javascript:" = true
          ∨ jsStartsWith (jsTrim href0) "mailto:" = true
          ∨ jsStartsWith (jsTrim href0) "tel:" = true then .ignored
      else if jsStartsWith (jsTrim href0) "http" = true then
        match parseUrl (jsTrim href0).data with
        | some u => if u.host = d then .internalAdd (jsTrim href0) else .externalCount
        | none => .skipped
      else
        match resolveAgainst p (jsTrim href0).data with
        | some u => .internalAdd ⟨refHref u⟩
        | none => .skipped := rfl

/-- **C6, amended.**  Fragment-only, `javascript:`, `mailto:` and `tel:`
targets are ignored (confirmed); an absolute `http…`-prefixed href is
classified internal exactly when its parsed host equals the page's host
(confirmed); but for every other reference the code performs *no* host
check at all: any non-`http`-leading reference that `new URL(href, url)`
resolves is classified internal and added to the internal URL set
regardless of the resolved host.  That covers not only relative paths but
also protocol-relative `//…` references (see the counterexample) and
references carrying their own scheme — `ftp://evil.com/x` resolves to the
foreign host `evil.com` yet is counted internal (final conjunct). -/
theorem link_classification_amended (p : UrlObj) (d : List Char) (href : String) :
    ((jsTrim href).data.isEmpty = true ∨ jsStartsWith (jsTrim href) "#" = true
        ∨ jsStartsWith (jsTrim href) "javascript:" = true
        ∨ jsStartsWith (jsTrim href) "mailto:" = true
        ∨ jsStartsWith (jsTrim href) "tel:" = true →
      classifyHref p d href = .ignored) ∧
    (¬ ((jsTrim href).data.isEmpty = true ∨ jsStartsWith (jsTrim href) "#" = true
        ∨ jsStartsWith (jsTrim href) "javascript:" = true
        ∨ jsStartsWith (jsTrim href) "mailto:" = true
        ∨ jsStartsWith (jsTrim href) "tel:" = true) →
      jsStartsWith (jsTrim href) "http" = true →
      ∀ u, parseUrl (jsTrim href).data = some u →
        classifyHref p d href =
          (if u.host = d then .internalAdd (jsTrim href) else .externalCount)) ∧
    (¬ ((jsTrim href).data.isEmpty = true ∨ jsStartsWith (jsTrim href) "#" = true
        ∨ jsStartsWith (jsTrim href) "javascript:" = true
        ∨ jsStartsWith (jsTrim href) "mailto:" = true
        ∨ jsStartsWith (jsTrim href) "tel:" = true) →
      jsStartsWith (jsTrim href) "http" = false →
      ∀ u, resolveAgainst p (jsTrim href).data = some u →
        classifyHref p d href = .internalAdd ⟨refHref u⟩) ∧
    (classifyHref examplePage "example.com".data "ftp://evil.com/x"
        = .internalAdd "ftp://evil.com/x" ∧
      (resolveAgainst examplePage "ftp://evil.com/x".data).map UrlObj.host
        = some "evil.com".data ∧
      "evil.com".data ≠ "example.com".data) := by
  refine ⟨?_, ?_, ?_, by decide, by decide, by decide⟩
  · intro hig
    rw [classifyHref_eq, if_pos hig]
  · intro hno hh u hu
    rw [classifyHref_eq, if_neg hno, if_pos hh, hu]
  · intro hno hh u hres
    rw [classifyHref_eq, if_neg hno, if_neg (by simp [hh]), hres]

/-- Witness for C6's amended theorem: an ignored fragment href, an external
absolute href, an internal path-absolute href, and an internal opaque-path
`data:` href (no host check in that branch). -/
theorem link_classification_amended_witness :
    classifyHref examplePage "example.com".data "#top" = .ignored ∧
      classifyHref examplePage "example.com".data "https://other.com/x" = .externalCount ∧
      classifyHref examplePage "example.com".data "/about"
        = .internalAdd "https://example.com/about" ∧
      classifyHref examplePage "example.com".data "data:text/plain,hi"
        = .internalAdd "data:text/plain,hi" := by
  refine ⟨?_, ?_, ?_, ?_⟩
  · exact (link_classification_amended examplePage "example.com".data "#top").1
      (Or.inr (Or.inl (by decide)))
  · have h := (link_classification_amended examplePage "example.com".data
      "https://other.com/x").2.1 (by decide) (by decide)
      { scheme := "https".data, host := "other.com".data, port := none
        path := "/x".data, search := [], frag := [] } (by decide)
    rw [h]
    decide
  · have h := (link_classification_amended examplePage "example.com".data "/about").2.2.1
      (by decide) (by decide)
      { scheme := "https".data, host := "example.com".data, port := none
        path := "/about".data, search := [], frag := [] } (by decide)
    exact h.trans (by decide)
  · have h := (link_classification_amended examplePage "example.com".data
      "data:text/plain,hi").2.2.1 (by decide) (by decide)
      { scheme := "data".data, host := [], port := none
        path := "text/plain,hi".data, search := [], frag := [] } (by decide)
    exact h.trans (by decide)

/-! ### Scanning lemmas for the URL round-trip -/

theorem takeWhile_boundary {p : Char → Bool} :
    ∀ (l1 l2 : List Char), (∀ c ∈ l1, p c = true) →
      (l2 = [] ∨ ∃ c t, l2 = c :: t ∧ p c = false) →
      (l1 ++ l2).takeWhile p = l1 ∧ (l1 ++ l2).dropWhile p = l2 := by
  intro l1
  induction l1 with
  | nil =>
    intro l2 _ h2
    rcases h2 with rfl | ⟨c, t, rfl, hc⟩
    · exact ⟨rfl, rfl⟩
    · simp [List.takeWhile_cons, List.dropWhile_cons, hc]
  | cons a t ih =>
    intro l2 h1 h2
    have ha : p a = true := h1 a (List.mem_cons_self a t)
    have ht : ∀ c ∈ t, p c = true := fun c hc => h1 c (List.mem_cons_of_mem a hc)
    have := ih l2 ht h2
    simp [List.takeWhile_cons, List.dropWhile_cons, ha, this.1, this.2]

theorem takeWhile_all_eq {p : Char → Bool} {l : List Char}
    (h : ∀ c ∈ l, p c = true) : l.takeWhile p = l ∧ l.dropWhile p = [] := by
  have := takeWhile_boundary l [] h (Or.inl rfl)
  simpa using this

theorem natDigitsAux_all (P : Char → Bool) (hP : ∀ d, d < 10 → P (digitChar d) = true) :
    ∀ (fuel n : Nat), n < fuel → (natDigitsAux fuel n).all P = true := by
  intro fuel
  induction fuel with
  | zero => intro n h; omega
  | succ f ih =>
    intro n h
    rw [natDigitsAux]
    by_cases h10 : n < 10
    · rw [if_pos h10]
      simp [hP n h10]
    · rw [if_neg h10]
      have hdiv : n / 10 < f := by omega
      have hmod : n % 10 < 10 := Nat.mod_lt n (by omega)
      simp [List.all_append, ih _ hdiv, hP _ hmod]

theorem natDigits_all (P : Char → Bool) (hP : ∀ d, d < 10 → P (digitChar d) = true)
    (n : Nat) : (natDigits n).all P = true :=
  natDigitsAux_all P hP (n + 1) n (Nat.lt_succ_self n)

theorem natDigitsAux_ne_nil : ∀ (fuel n : Nat), n < fuel → natDigitsAux fuel n ≠ [] := by
  intro fuel
  induction fuel with
  | zero => intro n h; omega
  | succ f ih =>
    intro n h
    rw [natDigitsAux]
    by_cases h10 : n < 10
    · rw [if_pos h10]; simp
    · rw [if_neg h10]; simp

theorem natDigits_ne_nil (n : Nat) : natDigits n ≠ [] :=
  natDigitsAux_ne_nil (n + 1) n (Nat.lt_succ_self n)

theorem digitsToNat_append (l : List Char) (c : Char) :
    digitsToNat (l ++ [c]) = 10 * digitsToNat l + (c.toNat - '0'.toNat) := by
  unfold digitsToNat
  rw [List.foldl_append]
  simp [Nat.mul_comm]

theorem digitChar_toNat (d : Nat) (h : d < 10) :
    (digitChar d).toNat - '0'.toNat = d := by
  interval_cases d <;> decide

theorem digitsToNat_natDigitsAux :
    ∀ (fuel n : Nat), n < fuel → digitsToNat (natDigitsAux fuel n) = n := by
  intro fuel
  induction fuel with
  | zero => intro n h; omega
  | succ f ih =>
    intro n h
    rw [natDigitsAux]
    by_cases h10 : n < 10
    · rw [if_pos h10]
      show digitsToNat ([] ++ [digitChar n]) = n
      rw [digitsToNat_append, digitChar_toNat n h10]
      simp [digitsToNat]
    · rw [if_neg h10]
      have hdiv : n / 10 < f := by omega
      have hmod : n % 10 < 10 := Nat.mod_lt n (by omega)
      rw [digitsToNat_append, ih _ hdiv, digitChar_toNat _ hmod]
      omega

theorem digitsToNat_natDigits (n : Nat) : digitsToNat (natDigits n) = n :=
  digitsToNat_natDigitsAux (n + 1) n (Nat.lt_succ_self n)

theorem okHostChar_spec {c : Char} (h : okHostChar c = true) :
    isJsSpace c = false ∧ c ≠ ':' ∧ c ≠ '/' ∧ c ≠ '?' ∧ c ≠ '#' := by
  simp only [okHostChar, Bool.and_eq_true, decide_eq_true_eq,
    Bool.not_eq_true'] at h
  exact ⟨h.1.1.1.1, h.1.1.1.2, h.1.1.2, h.1.2, h.2⟩

theorem digitChar_isDigit : ∀ d, d < 10 → (digitChar d).isDigit = true := by
  intro d h
  interval_cases d <;> decide

theorem host_all_ne_colon {host : List Char} (hhost : host.all okHostChar = true) :
    ∀ c ∈ host, (decide (c ≠ ':')) = true := by
  intro c hc
  have := (okHostChar_spec (List.all_eq_true.mp hhost c hc)).2.1
  simpa using this

theorem host_isEmpty_false {host : List Char} (hne : host ≠ []) :
    host.isEmpty = false := by
  cases host with
  | nil => exact absurd rfl hne
  | cons a t => rfl

theorem defaultPort_https : defaultPort "https".data = 443 := by decide

theorem parseAuthority_round (host : List Char) (port : Option Nat)
    (hhost : host.all okHostChar = true) (hne : host ≠ [])
    (hlower : lowerChars host = host)
    (hport : ∀ n, port = some n → n ≤ 65535) :
    parseAuthority "https".data (host ++ portChars port)
      = some (host, portNorm "https".data port) := by
  cases port with
  | none =>
    show parseAuthority "https".data (host ++ []) = some (host, none)
    rw [List.append_nil]
    simp only [parseAuthority]
    have h1 := takeWhile_all_eq (host_all_ne_colon hhost)
    rw [h1.1, h1.2, if_neg (by simp [host_isEmpty_false hne])]
    rw [hlower]
  | some n =>
    show parseAuthority "https".data (host ++ (':' :: natDigits n))
      = some (host, portNorm "https".data (some n))
    simp only [parseAuthority]
    have h1 := takeWhile_boundary (p := fun c => decide (c ≠ ':'))
      host (':' :: natDigits n)
      (host_all_ne_colon hhost) (Or.inr ⟨':', natDigits n, rfl, by decide⟩)
    rw [h1.1, h1.2, if_neg (by simp [host_isEmpty_false hne])]
    have hpe : (natDigits n).isEmpty = false := host_isEmpty_false (natDigits_ne_nil n)
    show (if (natDigits n).isEmpty = true then some (lowerChars host, none)
          else if allDigits (natDigits n) = true then
            if digitsToNat (natDigits n) > 65535 then none
            else if digitsToNat (natDigits n) = defaultPort "https".data then
              some (lowerChars host, none)
            else some (lowerChars host, some (digitsToNat (natDigits n)))
          else none) = some (host, portNorm "https".data (some n))
    rw [if_neg (by simp [hpe])]
    have hdig : allDigits (natDigits n) = true := by
      unfold allDigits
      exact natDigits_all Char.isDigit digitChar_isDigit n
    rw [if_pos hdig, digitsToNat_natDigits]
    have hle : n ≤ 65535 := hport n rfl
    rw [if_neg (by omega)]
    have hpn : portNorm "https".data (some n)
        = if n = defaultPort "https".data then none else some n := rfl
    rw [hpn]
    by_cases hn : n = defaultPort "https".data
    · rw [if_pos hn, if_pos hn, hlower]
    · rw [if_neg hn, if_neg hn, hlower]

theorem okPathChar_spec {c : Char} (h : okPathChar c = true) :
    isJsSpace c = false ∧ c ≠ '?' ∧ c ≠ '#' := by
  simp only [okPathChar, Bool.and_eq_true, decide_eq_true_eq,
    Bool.not_eq_true'] at h
  exact ⟨h.1.1, h.1.2, h.2⟩

theorem authChar_digit :
    ∀ d, d < 10 → (decide ((digitChar d) ≠ '/' ∧ (digitChar d) ≠ '?'
      ∧ (digitChar d) ≠ '#')) = true := by
  intro d h
  interval_cases d <;> decide

theorem parseUrl_https_split (X : List Char) :
    parseUrl ("https://".data ++ X) =
      match parseAuthority "https".data
          (X.takeWhile (fun c => c ≠ '/' ∧ c ≠ '?' ∧ c ≠ '#')) with
      | none => none
      | some (h, pr) =>
        some { scheme := "https".data, host := h, port := pr
               path := if ((X.dropWhile (fun c => c ≠ '/' ∧ c ≠ '?' ∧ c ≠ '#')).takeWhile
                   (fun c => c ≠ '?' ∧ c ≠ '#')).isEmpty then ['/']
                 else (X.dropWhile (fun c => c ≠ '/' ∧ c ≠ '?' ∧ c ≠ '#')).takeWhile
                   (fun c => c ≠ '?' ∧ c ≠ '#')
               search := if ((X.dropWhile (fun c => c ≠ '/' ∧ c ≠ '?' ∧ c ≠ '#')).dropWhile
                     (fun c => c ≠ '?' ∧ c ≠ '#')).takeWhile (fun c => c ≠ '#') = ['?']
                 then []
                 else ((X.dropWhile (fun c => c ≠ '/' ∧ c ≠ '?' ∧ c ≠ '#')).dropWhile
                     (fun c => c ≠ '?' ∧ c ≠ '#')).takeWhile (fun c => c ≠ '#')
               frag := ((X.dropWhile (fun c => c ≠ '/' ∧ c ≠ '?' ∧ c ≠ '#')).dropWhile
                   (fun c => c ≠ '?' ∧ c ≠ '#')).dropWhile (fun c => c ≠ '#') } := rfl

theorem parse_https_render (host : List Char) (port : Option Nat)
    (path query frag : List Char)
    (hhost : host.all okHostChar = true) (hne : host ≠ [])
    (hlower : lowerChars host = host)
    (hpath0 : path.head? = some '/') (hpathA : path.all okPathChar = true)
    (hq : query = [] ∨ (∃ qs, query = '?' :: qs ∧ qs ≠ [] ∧
      query.all (fun c => (!(isJsSpace c)) && c ≠ '#') = true))
    (hf : frag = [] ∨ (∃ fs, frag = '#' :: fs ∧
      frag.all (fun c => !(isJsSpace c)) = true))
    (hport : ∀ n, port = some n → n ≤ 65535) :
    parseUrl ("https://".data ++ ((host ++ portChars port) ++ (path ++ (query ++ frag)))) =
      some { scheme := "https".data, host := host, port := portNorm "https".data port
             path := path, search := query, frag := frag } := by
  obtain ⟨pt, rfl⟩ : ∃ pt, path = '/' :: pt := by
    cases path with
    | nil => simp at hpath0
    | cons a t =>
      simp only [List.head?_cons, Option.some.injEq] at hpath0
      exact ⟨t, by rw [hpath0]⟩
  rw [parseUrl_https_split]
  have hAuthAll : ∀ c ∈ host ++ portChars port,
      (decide (c ≠ '/' ∧ c ≠ '?' ∧ c ≠ '#')) = true := by
    intro c hc
    rcases List.mem_append.mp hc with hm | hm
    · have hs := okHostChar_spec (List.all_eq_true.mp hhost c hm)
      simp [decide_eq_true_eq]
      exact ⟨hs.2.2.1, hs.2.2.2.1, hs.2.2.2.2⟩
    · cases hp : port with
      | none => rw [hp] at hm; simp [portChars] at hm
      | some n =>
        rw [hp] at hm
        simp only [portChars] at hm
        rcases List.mem_cons.mp hm with rfl | hm2
        · decide
        · have := natDigits_all (fun c => decide (c ≠ '/' ∧ c ≠ '?' ∧ c ≠ '#'))
            authChar_digit n
          exact List.all_eq_true.mp this c hm2
  have hA := takeWhile_boundary (p := fun c => decide (c ≠ '/' ∧ c ≠ '?' ∧ c ≠ '#'))
    (host ++ portChars port) (('/' :: pt) ++ (query ++ frag))
    hAuthAll (Or.inr ⟨'/', pt ++ (query ++ frag), rfl, by decide⟩)
  rw [hA.1, hA.2, parseAuthority_round host port hhost hne hlower hport]
  have hPathAll : ∀ c ∈ '/' :: pt, (decide (c ≠ '?' ∧ c ≠ '#')) = true := by
    intro c hc
    have hs := okPathChar_spec (List.all_eq_true.mp hpathA c hc)
    simp [decide_eq_true_eq]
    exact ⟨hs.2.1, hs.2.2⟩
  have hQFhead : query ++ frag = [] ∨
      ∃ c t, query ++ frag = c :: t ∧ (decide (c ≠ '?' ∧ c ≠ '#')) = false := by
    rcases hq with rfl | ⟨qs, rfl, _, _⟩
    · rcases hf with rfl | ⟨fs, rfl, _⟩
      · exact Or.inl rfl
      · exact Or.inr ⟨'#', fs, rfl, by decide⟩
    · exact Or.inr ⟨'?', qs ++ frag, rfl, by decide⟩
  have hP := takeWhile_boundary (p := fun c => decide (c ≠ '?' ∧ c ≠ '#'))
    ('/' :: pt) (query ++ frag) hPathAll hQFhead
  have hQAll : ∀ c ∈ query, (decide (c ≠ '#')) = true := by
    intro c hc
    rcases hq with rfl | ⟨qs, hqs, _, hall⟩
    · simp at hc
    · have := List.all_eq_true.mp hall c hc
      simp only [Bool.and_eq_true, decide_eq_true_eq] at this
      simp [this.2]
  have hFhead : frag = [] ∨ ∃ c t, frag = c :: t ∧ (decide (c ≠ '#')) = false := by
    rcases hf with rfl | ⟨fs, rfl, _⟩
    · exact Or.inl rfl
    · exact Or.inr ⟨'#', fs, rfl, by decide⟩
  have hS := takeWhile_boundary (p := fun c => decide (c ≠ '#')) query frag hQAll hFhead
  have hqne : query ≠ ['?'] := by
    rcases hq with rfl | ⟨qs, rfl, hqs, _⟩
    · simp
    · intro hcon
      exact hqs (by simpa using hcon)
  show some _ = some _
  rw [hP.1, hP.2, hS.1, hS.2]
  rw [if_neg (by simp), if_neg hqne]

theorem dropWhile_all_false {p : Char → Bool} {l : List Char}
    (h : ∀ c ∈ l, p c = false) : l.dropWhile p = l := by
  cases l with
  | nil => rfl
  | cons a t => simp [List.dropWhile_cons, h a (List.mem_cons_self a t)]

theorem jsTrim_no_space {l : List Char} (h : ∀ c ∈ l, isJsSpace c = false) :
    jsTrim ⟨l⟩ = ⟨l⟩ := by
  unfold jsTrim
  have h1 : l.dropWhile isJsSpace = l := dropWhile_all_false h
  show String.mk ((l.dropWhile isJsSpace).reverse.dropWhile isJsSpace |>.reverse) = ⟨l⟩
  rw [h1]
  have h2 : l.reverse.dropWhile isJsSpace = l.reverse :=
    dropWhile_all_false (fun c hc => h c (List.mem_reverse.mp hc))
  rw [h2, List.reverse_reverse]

theorem containsSub_singleton_mem {c : Char} {l : List Char}
    (h : containsSub [c] l = true) : c ∈ l := by
  induction l with
  | nil => simp [containsSub, List.isEmpty] at h
  | cons x t ih =>
    rw [containsSub, Bool.or_eq_true] at h
    rcases h with h | h
    · simp only [isPre, Bool.and_eq_true, beq_iff_eq] at h
      rw [h.1]
      exact List.mem_cons_self x t
    · exact List.mem_cons_of_mem x (ih h)

theorem isPre_iff_prefix : ∀ {l1 l2 : List Char}, isPre l1 l2 = true ↔ l1 <+: l2 := by
  intro l1
  induction l1 with
  | nil => intro l2; simp [isPre]
  | cons a as ih =>
    intro l2
    cases l2 with
    | nil => simp [isPre]
    | cons b bs =>
      rw [isPre, Bool.and_eq_true, beq_iff_eq]
      constructor
      · rintro ⟨rfl, h⟩
        obtain ⟨t, ht⟩ := ih.mp h
        exact ⟨t, by rw [List.cons_append, ht]⟩
      · intro h
        rcases h with ⟨t, ht⟩
        injection ht with h1 h2
        exact ⟨h1, ih.mpr ⟨t, h2⟩⟩

theorem no_scheme_prefix {host rest : List Char} {P : List Char}
    (hhostA : host.all okHostChar = true)
    (hdot : containsSub ".".data host = true)
    (hcol : ':' ∈ P) (hnodot : '.' ∉ P) :
    ¬ isPre P (host ++ rest) = true := by
  intro hpre
  have h1 : P <+: host ++ rest := isPre_iff_prefix.mp hpre
  have h2 : host <+: host ++ rest := List.prefix_append host rest
  rcases List.prefix_or_prefix_of_prefix h1 h2 with hc | hc
  · have : ':' ∈ host := hc.sublist.subset hcol
    exact (okHostChar_spec (List.all_eq_true.mp hhostA ':' this)).2.1 rfl
  · have : '.' ∈ P := hc.sublist.subset (containsSub_singleton_mem hdot)
    exact hnodot this

theorem notSpace_digit : ∀ d, d < 10 → (!(isJsSpace (digitChar d))) = true := by
  intro d h
  interval_cases d <;> decide

/-- Every character of a well-formed rendered URL body is non-whitespace. -/
theorem renderBody_no_space {host : List Char} {port : Option Nat}
    {path query frag : List Char}
    (hhostA : host.all okHostChar = true) (hpathA : path.all okPathChar = true)
    (hq : query = [] ∨ (∃ qs, query = '?' :: qs ∧ qs ≠ [] ∧
      query.all (fun c => (!(isJsSpace c)) && c ≠ '#') = true))
    (hf : frag = [] ∨ (∃ fs, frag = '#' :: fs ∧
      frag.all (fun c => !(isJsSpace c)) = true)) :
    ∀ c ∈ (((host ++ portChars port) ++ path) ++ query) ++ frag,
      isJsSpace c = false := by
  intro c hc
  rcases List.mem_append.mp hc with hc | hcf
  case inr =>
    rcases hf with rfl | ⟨fs, rfl, hall⟩
    · simp at hcf
    · have := List.all_eq_true.mp hall c hcf
      simpa using this
  rcases List.mem_append.mp hc with hc | hcq
  case inr =>
    rcases hq with rfl | ⟨qs, rfl, _, hall⟩
    · simp at hcq
    · have := List.all_eq_true.mp hall c hcq
      simp only [Bool.and_eq_true] at this
      simpa using this.1
  rcases List.mem_append.mp hc with hch | hcp
  case inr => exact (okPathChar_spec (List.all_eq_true.mp hpathA c hcp)).1
  rcases List.mem_append.mp hch with hch | hcport
  case inl => exact (okHostChar_spec (List.all_eq_true.mp hhostA c hch)).1
  cases hp : port with
  | none => rw [hp] at hcport; simp [portChars] at hcport
  | some n =>
    rw [hp] at hcport
    simp only [portChars] at hcport
    rcases List.mem_cons.mp hcport with rfl | hm2
    · rfl
    · have := List.all_eq_true.mp
        (natDigits_all (fun c => !(isJsSpace c)) notSpace_digit n) c hm2
      simpa using this

theorem normalizeUrl_render (r : RenderUrl) (hwf : r.wf) :
    normalizeUrl (renderUrl r) =
      some ⟨urlHref { scheme := "https".data, host := r.host
                      port := portNorm "https".data r.port
                      path := r.path, search := r.query, frag := r.frag }⟩ := by
  rcases r with ⟨sec, host, port, path, query, frag⟩
  obtain ⟨hlower, hhostA, hdot, hlen, hpath0, hpathA, hq, hf, hport⟩ := hwf
  simp only at hlower hhostA hdot hlen hpath0 hpathA hq hf hport
  have hne : host ≠ [] := by
    intro h
    rw [h] at hlen
    simp at hlen
  have hnospace := @renderBody_no_space host port path query frag hhostA hpathA hq hf
  have hnostart : ¬ (isPre "http://".data
        ((((host ++ portChars port) ++ path) ++ query) ++ frag) = true ∨
      isPre "https://".data
        ((((host ++ portChars port) ++ path) ++ query) ++ frag) = true) := by
    have e1 : (((host ++ portChars port) ++ path) ++ query) ++ frag
        = host ++ (((portChars port ++ path) ++ query) ++ frag) := by
      simp [List.append_assoc]
    rw [e1]
    rintro (hcon | hcon)
    · exact no_scheme_prefix hhostA hdot (by decide) (by decide) hcon
    · exact no_scheme_prefix hhostA hdot (by decide) (by decide) hcon
  have hassoc : "https://".data ++ ((((host ++ portChars port) ++ path) ++ query) ++ frag)
      = "https://".data ++ ((host ++ portChars port) ++ (path ++ (query ++ frag))) := by
    simp [List.append_assoc]
  cases sec with
  | true =>
    have hdata : (renderUrl ⟨true, host, port, path, query, frag⟩).data
        = "https://".data ++ ((((host ++ portChars port) ++ path) ++ query) ++ frag) := by
      show ((((("https".data ++ "://".data) ++ host) ++ portChars port) ++ path)
          ++ query) ++ frag = _
      simp [List.append_assoc]
    have hmem : ∀ c ∈ (renderUrl ⟨true, host, port, path, query, frag⟩).data,
        isJsSpace c = false := by
      intro c hc
      rw [hdata] at hc
      rcases List.mem_append.mp hc with hm | hm
      · fin_cases hm <;> rfl
      · exact hnospace c hm
    have htrim : jsTrim (renderUrl ⟨true, host, port, path, query, frag⟩)
        = renderUrl ⟨true, host, port, path, query, frag⟩ := jsTrim_no_space hmem
    simp only [normalizeUrl]
    rw [htrim]
    have hstrip : stripUrlLeader (renderUrl ⟨true, host, port, path, query, frag⟩).data
        = (((host ++ portChars port) ++ path) ++ query) ++ frag := by
      rw [hdata]
      exact rfl
    rw [hstrip, if_neg hnostart, hassoc,
      parse_https_render host port path query frag hhostA hne hlower hpath0 hpathA hq hf hport]
    dsimp only
    rw [if_neg (by simp only [not_lt]; omega), if_neg (by simp [hdot])]
  | false =>
    have hdata : (renderUrl ⟨false, host, port, path, query, frag⟩).data
        = "http://".data ++ ((((host ++ portChars port) ++ path) ++ query) ++ frag) := by
      show ((((("http".data ++ "://".data) ++ host) ++ portChars port) ++ path)
          ++ query) ++ frag = _
      simp [List.append_assoc]
    have hmem : ∀ c ∈ (renderUrl ⟨false, host, port, path, query, frag⟩).data,
        isJsSpace c = false := by
      intro c hc
      rw [hdata] at hc
      rcases List.mem_append.mp hc with hm | hm
      · fin_cases hm <;> rfl
      · exact hnospace c hm
    have htrim : jsTrim (renderUrl ⟨false, host, port, path, query, frag⟩)
        = renderUrl ⟨false, host, port, path, query, frag⟩ := jsTrim_no_space hmem
    simp only [normalizeUrl]
    rw [htrim]
    have hstrip : stripUrlLeader (renderUrl ⟨false, host, port, path, query, frag⟩).data
        = (((host ++ portChars port) ++ path) ++ query) ++ frag := by
      rw [hdata]
      exact rfl
    rw [hstrip, if_neg hnostart, hassoc,
      parse_https_render host port path query frag hhostA hne hlower hpath0 hpathA hq hf hport]
    dsimp only
    rw [if_neg (by simp only [not_lt]; omega), if_neg (by simp [hdot])]

theorem portNorm_idem (s : List Char) (p : Option Nat) :
    portNorm s (portNorm s p) = portNorm s p := by
  cases p with
  | none => rfl
  | some n =>
    have h : portNorm s (some n) = if n = defaultPort s then none else some n := rfl
    rw [h]
    by_cases hn : n = defaultPort s
    · rw [if_pos hn]
      rfl
    · rw [if_neg hn, h, if_neg hn]

theorem parseUrl_urlHref (host : List Char) (port : Option Nat)
    (path query frag : List Char)
    (hhost : host.all okHostChar = true) (hne : host ≠ [])
    (hlower : lowerChars host = host)
    (hpath0 : path.head? = some '/') (hpathA : path.all okPathChar = true)
    (hq : query = [] ∨ (∃ qs, query = '?' :: qs ∧ qs ≠ [] ∧
      query.all (fun c => (!(isJsSpace c)) && c ≠ '#') = true))
    (hf : frag = [] ∨ (∃ fs, frag = '#' :: fs ∧
      frag.all (fun c => !(isJsSpace c)) = true))
    (hport : ∀ n, port = some n → n ≤ 65535) :
    parseUrl (urlHref { scheme := "https".data, host := host
                        port := portNorm "https".data port
                        path := path, search := query, frag := frag }) =
      some { scheme := "https".data, host := host
             port := portNorm "https".data port
             path := path, search := query, frag := frag } := by
  have hport2 : ∀ n, portNorm "https".data port = some n → n ≤ 65535 := by
    intro n h
    cases hp : port with
    | none => rw [hp] at h; exact absurd h (by simp [portNorm])
    | some m =>
      rw [hp] at h
      show n ≤ 65535
      by_cases hm : m = defaultPort "https".data
      · rw [show portNorm "https".data (some m) = none from by
          show (if m = defaultPort "https".data then none else some m) = none
          rw [if_pos hm]] at h
        exact absurd h (by simp)
      · rw [show portNorm "https".data (some m) = some m from by
          show (if m = defaultPort "https".data then none else some m) = some m
          rw [if_neg hm]] at h
        have := Option.some.inj h
        rw [← this]
        exact hport m hp
  have e : urlHref { scheme := "https".data
                     host := host
                     port := portNorm "https".data port
                     path := path
                     search := query
                     frag := frag }
      = "https://".data
        ++ ((host ++ portChars (portNorm "https".data port)) ++ (path ++ (query ++ frag))) := by
    show ((((("https".data ++ "://".data) ++ host) ++ portChars (portNorm "https".data port))
        ++ path) ++ query) ++ frag = _
    simp [List.append_assoc]
  rw [e, parse_https_render host (portNorm "https".data port) path query frag
    hhost hne hlower hpath0 hpathA hq hf hport2, portNorm_idem]

theorem linkDedupKey_render (r : RenderUrl) (hwf : r.wf) :
    linkDedupKey (renderUrl r) =
      some (dedupKeyOf { scheme := "https".data, host := r.host
                         port := portNorm "https".data r.port
                         path := r.path, search := r.query, frag := r.frag }) := by
  obtain ⟨hlower, hhostA, hdot, hlen, hpath0, hpathA, hq, hf, hport⟩ := hwf
  have hne : r.host ≠ [] := by
    intro h
    rw [h] at hlen
    simp at hlen
  unfold linkDedupKey
  rw [normalizeUrl_render r ⟨hlower, hhostA, hdot, hlen, hpath0, hpathA, hq, hf, hport⟩]
  show (match parseUrl (urlHref { scheme := "https".data
                                  host := r.host
                                  port := portNorm "https".data r.port
                                  path := r.path
                                  search := r.query
                                  frag := r.frag }) with
    | none => none
    | some u => some (dedupKeyOf u)) = _
  rw [parseUrl_urlHref r.host r.port r.path r.query r.frag hhostA hne hlower
    hpath0 hpathA hq hf hport]

theorem dropOneTrailingSlash_concat {path : List Char} (h0 : path ≠ [])
    (hlast : path.getLast? ≠ some '/') :
    dropOneTrailingSlash (path ++ ['/']) = dropOneTrailingSlash path := by
  have h1 : (path ++ ['/']).getLast? = some '/' := List.getLast?_concat path
  have h2 : ¬ (path ≠ [] ∧ path.getLast? = some '/') := fun hc => hlast hc.2
  have h3 : (path ++ ['/']) ≠ [] ∧ (path ++ ['/']).getLast? = some '/' :=
    ⟨by simp, h1⟩
  simp only [dropOneTrailingSlash]
  rw [if_pos h3, if_neg h2, List.dropLast_concat]

/-- **C8, amended.**  For well-formed URLs the claim holds for a trailing
slash and for the `https` default port: adding a trailing `/` to the path,
or adding `:443` to an `https` URL, yields the same deduplication key.  It
fails for the `http` default port (see the counterexample):
`normalizeUrl` rewrites every URL to `https`, so an explicit `:80` is no
longer a default port and survives into the key. -/
theorem normalization_key_slash_and_default_port (r : RenderUrl) (hwf : r.wf)
    (hnoslash : r.path.getLast? ≠ some '/') :
    (linkDedupKey (renderUrl { r with path := r.path ++ ['/'] })
        = linkDedupKey (renderUrl r) ∧
      (linkDedupKey (renderUrl r)).isSome = true) ∧
    linkDedupKey (renderUrl { r with secure := true, port := some 443 })
      = linkDedupKey (renderUrl { r with secure := true, port := none }) := by
  obtain ⟨hlower, hhostA, hdot, hlen, hpath0, hpathA, hq, hf, hport⟩ := hwf
  have hpne : r.path ≠ [] := by
    intro h
    rw [h] at hpath0
    simp at hpath0
  have hwf2 : RenderUrl.wf { r with path := r.path ++ ['/'] } := by
    refine ⟨hlower, hhostA, hdot, hlen, ?_, ?_, hq, hf, hport⟩
    · show (r.path ++ ['/']).head? = some '/'
      cases hp : r.path with
      | nil => exact absurd hp hpne
      | cons a t =>
        rw [hp] at hpath0
        simp only [List.head?_cons, Option.some.injEq] at hpath0
        rw [hpath0]
        rfl
    · show (r.path ++ ['/']).all okPathChar = true
      rw [List.all_append]
      simp [hpathA]
      decide
  have hwf443 : RenderUrl.wf { r with secure := true, port := some 443 } :=
    ⟨hlower, hhostA, hdot, hlen, hpath0, hpathA, hq, hf,
      fun n h => by rw [← Option.some.inj h]; omega⟩
  have hwfNone : RenderUrl.wf { r with secure := true, port := none } :=
    ⟨hlower, hhostA, hdot, hlen, hpath0, hpathA, hq, hf,
      fun n h => Option.noConfusion h⟩
  refine ⟨⟨?_, ?_⟩, ?_⟩
  · rw [linkDedupKey_render _ hwf2,
      linkDedupKey_render r ⟨hlower, hhostA, hdot, hlen, hpath0, hpathA, hq, hf, hport⟩]
    show some (dedupKeyOf { scheme := "https".data
                            host := r.host
                            port := portNorm "https".data r.port
                            path := r.path ++ ['/']
                            search := r.query
                            frag := r.frag })
      = some (dedupKeyOf { scheme := "https".data
                           host := r.host
                           port := portNorm "https".data r.port
                           path := r.path
                           search := r.query
                           frag := r.frag })
    unfold dedupKeyOf
    dsimp only
    rw [dropOneTrailingSlash_concat hpne hnoslash]
    rfl
  · rw [linkDedupKey_render r ⟨hlower, hhostA, hdot, hlen, hpath0, hpathA, hq, hf, hport⟩]
    rfl
  · rw [linkDedupKey_render _ hwf443, linkDedupKey_render _ hwfNone]
    rfl

/-- Witness for C8's amended theorem on `http://example.com/a`. -/
theorem normalization_key_slash_and_default_port_witness :
    (linkDedupKey (renderUrl ⟨false, "example.com".data, none, "/a".data ++ ['/'], [], []⟩)
        = linkDedupKey (renderUrl ⟨false, "example.com".data, none, "/a".data, [], []⟩) ∧
      (linkDedupKey (renderUrl ⟨false, "example.com".data, none, "/a".data, [], []⟩)).isSome
        = true) ∧
    linkDedupKey (renderUrl ⟨true, "example.com".data, some 443, "/a".data, [], []⟩)
      = linkDedupKey (renderUrl ⟨true, "example.com".data, none, "/a".data, [], []⟩) := by
  have h := normalization_key_slash_and_default_port
    ⟨false, "example.com".data, none, "/a".data, [], []⟩
    ⟨by decide, by decide, by decide, by decide, by decide, by decide,
     Or.inl rfl, Or.inl rfl, fun n h => Option.noConfusion h⟩
    (by decide)
  exact h

end SEO
